import Mathlib

set_option maxHeartbeats 1000000

/-!
Shallow embedding of the queue-management front end (johnasblasco/queue-frontend)
and proofs about its specification claims.

The embedded fragments are:
* the session store and the HTTP client's error handling (`src/src/services/api.ts`);
* the realtime channel client (`WebSocketService`) in both of its source
  variants, over a model of the pusher-js channel registry;
* the queue-state reconciler: `processQueueData` / `processQueueListUpdate`
  (the Display component, `src/unnamed/part_003`), the older Display's
  `processQueueData` and the ControllerWrapper's `updateQueueState`
  (`src/unnamed/part_000`);
* the lodash `throttle` wrapper used for bulk fetches;
* the Gateway traffic of the skip/complete action handlers, together with a
  Gateway transition system modelled from the spec (the Gateway itself is an
  external collaborator and has no code in this repository).
-/

/-- Association-list lookup with decidable key equality, modelling JS
`Map.get` and plain-object property lookup (first matching key wins; keys are
unique by construction in all uses). -/
def alookup {κ β : Type} [DecidableEq κ] : List (κ × β) → κ → Option β
  | [], _ => none
  | (a, b) :: rest, k => if a = k then some b else alookup rest k

/-- Replace the value stored at a key, modelling in-place mutation of
`map.get(k)` / `obj[k]`. -/
def aset {κ β : Type} [DecidableEq κ] (l : List (κ × β)) (k : κ) (v : β) :
    List (κ × β) :=
  l.map (fun p => if p.1 = k then (k, v) else p)

/-- Queue entry lifecycle status (`src/unnamed/part_003`, type `QueueItem`). -/
inductive Status where
  | waiting
  | serving
  | completed
deriving DecidableEq

-- ----------------------------------------------------------------------
-- Session store and HTTP error handling (src/src/services/api.ts)
-- ----------------------------------------------------------------------

/-- The persistent session state touched by `setAuthToken` (api.ts lines
52-60 / 375-383): the axios default Authorization header and the
localStorage item `auth_token`. -/
structure Session where
  authHeader : Option String
  storedToken : Option String
deriving DecidableEq

/-- `setAuthToken` (api.ts lines 52-60): a token installs the bearer header
and persists the token; null removes both. Idempotent by construction. -/
def setAuthToken (token : Option String) (_s : Session) : Session :=
  match token with
  | some t => { authHeader := some ("Bearer " ++ t), storedToken := some t }
  | none => { authHeader := none, storedToken := none }

/-- A parsed backend response body as the client consumes it: success flag,
optional message, optional token (used by login). -/
structure ApiResult where
  success : Bool
  message : Option String
  token : Option String
deriving DecidableEq

/-- Outcome of one HTTP request at the transport level: either a parsed
response body (`res.data`), or a request error carrying the optional
backend-provided message (`error.response?.data?.message`). -/
inductive Outcome where
  | ok (resp : ApiResult)
  | err (backendMsg : Option String)
deriving DecidableEq

/-- JS `m || fallback` on an optional string: the backend message if present
and non-empty (truthy), else the fallback. -/
def orFallback (m : Option String) (fallback : String) : String :=
  match m with
  | some s => if s = "" then fallback else s
  | none => fallback

/-- The failure object every catch block in api.ts builds:
`{ success: false, message: error.response?.data?.message || fallback }`. -/
def failureResult (m : Option String) (fallback : String) : ApiResult :=
  { success := false, message := some (orFallback m fallback), token := none }

/-- `login` (api.ts lines 153-168): on a successful response carrying a
token, install it; on request error return the failure object. -/
def login (o : Outcome) (s : Session) : Session × ApiResult :=
  match o with
  | .ok r =>
      (match r.token with
       | some t => if r.success = true ∧ t ≠ "" then setAuthToken (some t) s else s
       | none => s,
       r)
  | .err m => (s, failureResult m "Login failed")

/-- `logout` (api.ts lines 170-184): clears the credential in the success
branch and in the catch branch alike, then returns the response body or the
failure object. -/
def logout (o : Outcome) (s : Session) : Session × ApiResult :=
  match o with
  | .ok r => (setAuthToken none s, r)
  | .err m => (setAuthToken none s, failureResult m "Logout failed")

/-- The request part of `QueueService.listQueue` via `throttledListQueue`
(api.ts lines 28-40): the error branch yields the failure object. -/
def listQueue (o : Outcome) : ApiResult :=
  match o with
  | .ok r => r
  | .err m => failureResult m "Failed to fetch queue"

/-- `QueueService.addPerson` (api.ts lines 226-237). -/
def addPerson (o : Outcome) : ApiResult :=
  match o with
  | .ok r => r
  | .err m => failureResult m "Failed to add person"

/-- `QueueService.callNext` (api.ts lines 239-250). -/
def callNext (o : Outcome) : ApiResult :=
  match o with
  | .ok r => r
  | .err m => failureResult m "Failed to call next person"

/-- `QueueService.recall` (api.ts lines 252-263; named `recallPerson` here
because `recall` is a reserved command name in this Lean environment). -/
def recallPerson (o : Outcome) : ApiResult :=
  match o with
  | .ok r => r
  | .err m => failureResult m "Failed to recall person"

/-- `QueueService.completeQueue` (api.ts lines 265-276). -/
def completeQueue (o : Outcome) : ApiResult :=
  match o with
  | .ok r => r
  | .err m => failureResult m "Failed to complete queue"

/-- `CounterService.fetchCounters` via `throttledFetchCounters`
(api.ts lines 15-26). -/
def fetchCounters (o : Outcome) : ApiResult :=
  match o with
  | .ok r => r
  | .err m => failureResult m "Failed to fetch counters"

/-- `removePerson` (api.ts lines 321-332). -/
def removePerson (o : Outcome) : ApiResult :=
  match o with
  | .ok r => r
  | .err m => failureResult m "Failed to remove person"

/-- The well-formed failure shape: success flag false together with a
non-empty message string. -/
def IsFailure (r : ApiResult) : Prop :=
  r.success = false ∧ ∃ msg, r.message = some msg ∧ msg ≠ ""

-- ----------------------------------------------------------------------
-- Realtime channel client (WebSocketService, both variants in api.ts)
-- ----------------------------------------------------------------------

/-- Callback identity: user callbacks are numbered; the two console-logging
handlers the service binds on a fresh map entry are distinguished constants
(they are never unbound, so their mutual identity is irrelevant). -/
inductive Cb where
  | user (id : Nat)
  | logSub
  | logErr
deriving DecidableEq

/-- A pusher channel object: its event bindings in bind order. Modelled from
pusher-js documented behaviour: `bind(event, cb)` appends, `unbind(event, cb)`
removes exactly the bindings with that event and that callback. -/
structure Channel where
  bindings : List (String × Cb)
deriving DecidableEq

/-- The pusher client. Channel objects are identified by allocation ids so
object identity and reuse are observable; `byName` is pusher's channel
collection keyed by channel name. Modelled from pusher-js documented
behaviour: `subscribe(name)` returns the already-existing channel object for
`name`, creating one only if absent. -/
structure PusherState where
  nextId : Nat
  byName : List (String × Nat)
  objs : List (Nat × Channel)
deriving DecidableEq

/-- pusher-js `subscribe(name)`: return the existing channel for the name or
allocate a fresh one. -/
def pusherSubscribe (p : PusherState) (name : String) : Nat × PusherState :=
  match alookup p.byName name with
  | some cid => (cid, p)
  | none =>
      (p.nextId,
       { nextId := p.nextId + 1
         byName := p.byName ++ [(name, p.nextId)]
         objs := p.objs ++ [(p.nextId, ⟨[]⟩)] })

/-- pusher-js `channel.bind(event, cb)`. -/
def chanBind (p : PusherState) (cid : Nat) (ev : String) (cb : Cb) :
    PusherState :=
  { p with
    objs := p.objs.map (fun q =>
      if q.1 = cid then (q.1, ⟨q.2.bindings ++ [(ev, cb)]⟩) else q) }

/-- pusher-js `channel.unbind(event, cb)`: removes every binding whose event
and callback both match. -/
def chanUnbind (p : PusherState) (cid : Nat) (ev : String) (cb : Cb) :
    PusherState :=
  { p with
    objs := p.objs.map (fun q =>
      if q.1 = cid then
        (q.1, ⟨q.2.bindings.filter (fun b => ¬(b.1 = ev ∧ b.2 = cb))⟩)
      else q) }

/-- The fresh pusher client that `connect()` creates when `this.pusher` is
null (the only way `subscribe` reaches `connect`). -/
def freshPusher : PusherState := ⟨0, [], []⟩

/-- `WebSocketService` state: the optional pusher client plus the service's
own `channels` map. In the first source variant (api.ts line 102) the map key
is `channelName + "-" + eventName`; in the second (line 441) it is
`channelName`. -/
structure WSState where
  pusher : Option PusherState
  channels : List (String × Nat)
deriving DecidableEq

/-- The data captured by an unsubscribe closure: the channel object it bound
to and the event/callback pair to unbind. -/
structure Unsub where
  cid : Nat
  ev : String
  cb : Cb
deriving DecidableEq

/-- The shared body of both `WebSocketService.subscribe` variants,
parameterised by the service-map key (the only place the two source variants
differ). On a fresh key the channel is obtained from pusher (which dedups by
name), the two logging handlers are bound, then the user callback is bound to
the event; on a known key the user callback is bound to the stored channel
object. -/
def subscribeGen (key : String) (s : WSState) (channelName eventName : String)
    (k : Nat) : Unsub × WSState :=
  let p0 := s.pusher.getD freshPusher
  match alookup s.channels key with
  | some cid =>
      (⟨cid, eventName, .user k⟩,
       { pusher := some (chanBind p0 cid eventName (.user k))
         channels := s.channels })
  | none =>
      let r := pusherSubscribe p0 channelName
      let p1 := chanBind r.2 r.1 "pusher:subscription_succeeded" .logSub
      let p2 := chanBind p1 r.1 "pusher:subscription_error" .logErr
      let p3 := chanBind p2 r.1 eventName (.user k)
      (⟨r.1, eventName, .user k⟩,
       { pusher := some p3, channels := s.channels ++ [(key, r.1)] })

/-- `WebSocketService.subscribe`, first variant (api.ts lines 96-130): the
service map is keyed by `channelName + "-" + eventName`. -/
def subscribe1 (s : WSState) (channelName eventName : String) (k : Nat) :
    Unsub × WSState :=
  subscribeGen (channelName ++ "-" ++ eventName) s channelName eventName k

/-- `WebSocketService.subscribe`, second variant (api.ts lines 437-473):
identical except the service map is keyed by `channelName` alone. -/
def subscribe2 (s : WSState) (channelName eventName : String) (k : Nat) :
    Unsub × WSState :=
  subscribeGen channelName s channelName eventName k

/-- Running an unsubscribe closure: unbind that event/callback pair on the
captured channel object (api.ts lines 121-125 / 459-466; neither variant
unsubscribes the channel itself). -/
def runUnsub (s : WSState) (u : Unsub) : WSState :=
  match s.pusher with
  | none => s
  | some p => { s with pusher := some (chanUnbind p u.cid u.ev u.cb) }

/-- The binding list of a channel object id (empty when there is no pusher
client: the fresh client holds no objects). -/
def bindingsAt (s : WSState) (cid : Nat) : List (String × Cb) :=
  match alookup (s.pusher.getD freshPusher).objs cid with
  | some ch => ch.bindings
  | none => []

/-- The channel object id pusher holds for a channel name (none when there is
no pusher client). -/
def chanIdOf (s : WSState) (name : String) : Option Nat :=
  alookup (s.pusher.getD freshPusher).byName name

/-- The callbacks that fire, in bind order, when an event arrives on a named
channel: pusher dispatches to the callbacks bound to that event on the
channel object registered for that name. -/
def fireCallbacks (s : WSState) (name ev : String) : List Cb :=
  match chanIdOf s name with
  | none => []
  | some cid => ((bindingsAt s cid).filter (fun b => b.1 = ev)).map (fun b => b.2)

/-- How many channel objects pusher holds for a given channel name. -/
def chanCount (s : WSState) (name : String) : Nat :=
  (((s.pusher.getD freshPusher).byName).filter (fun q => q.1 = name)).length

/-- Well-formedness of the service state, true of every state the service
reaches in ordinary operation: pusher's channel collection has no duplicate
names, every registered channel id has an object, and the service's channel
map is aligned with pusher's collection — for the first variant each map
entry's key decomposes as `name-event` and points at the pusher channel of
`name`; for the second each map entry's key is the channel name itself. -/
structure WSInv (s : WSState) : Prop where
  nodupNames : (((s.pusher.getD freshPusher).byName).map Prod.fst).Nodup
  objExists : ∀ n cid, alookup (s.pusher.getD freshPusher).byName n = some cid →
    (alookup (s.pusher.getD freshPusher).objs cid).isSome = true
  mapAligned1 : ∀ key cid, alookup s.channels key = some cid →
    ∀ n e, key = n ++ "-" ++ e →
      alookup (s.pusher.getD freshPusher).byName n = some cid
  mapAligned2 : ∀ n cid, alookup s.channels n = some cid →
    alookup (s.pusher.getD freshPusher).byName n = some cid

-- ----------------------------------------------------------------------
-- Queue state reconciler (src/unnamed/part_003 and part_000)
-- ----------------------------------------------------------------------

/-- Counter metadata carried on a queue row and in counter-stats events. -/
structure CounterMeta where
  id : Nat
  counter_name : Option String
  queue_waiting : Option Nat
  queue_serving : Option Nat
deriving DecidableEq

/-- A backend queue row as consumed by the Display component
(`src/unnamed/part_003`, type `QueueItem`). Timestamps are epoch
milliseconds. -/
structure QueueItem where
  id : Nat
  service_counter_id : Nat
  queue_number : String
  customer_name : String
  is_priority : Bool
  status : Status
  created_at : Option Nat
  served_at : Option Nat
  timestamp : Option Nat
  counter : Option CounterMeta
deriving DecidableEq

/-- A display-layer entry as built by the reconciler: `{id, queueNumber,
name, counterNumber, timestamp}` plus the `isNext` flag added on promotion (a
JS object built without the flag reads it as undefined, i.e. false). -/
structure DEntry where
  id : Nat
  queueNumber : String
  name : String
  counterNumber : Nat
  timestamp : Nat
  isNext : Bool
deriving DecidableEq

/-- Per-counter view model (`part_003`, type `CounterState`). -/
structure CounterState where
  currentServing : Option DEntry
  waitingQueue : List DEntry
  recentlyServed : List DEntry
  counterInfo : Option CounterMeta
deriving DecidableEq

/-- The freshly created per-counter state. -/
def emptyCS (info : Option CounterMeta) : CounterState :=
  ⟨none, [], [], info⟩

/-- `item.created_at || item.timestamp || new Date().toISOString()`
(part_003 lines 60 and 119): first present timestamp, else the current
time. -/
def tsOf (now : Nat) (item : QueueItem) : Nat :=
  item.created_at.getD (item.timestamp.getD now)

/-- The display entry built for a serving or waiting row (part_003). -/
def dispOf (cid now : Nat) (item : QueueItem) : DEntry :=
  { id := item.id
    queueNumber := item.queue_number
    name := item.customer_name
    counterNumber := cid
    timestamp := tsOf now item
    isNext := false }

/-- The display entry built for a completed row: its timestamp is
`item.served_at || ts` (served-or-created time). -/
def dispServed (cid now : Nat) (item : QueueItem) : DEntry :=
  { dispOf cid now item with
    timestamp := item.served_at.getD (tsOf now item) }

/-- One row's effect on a counter state: the `status === ...` branch cascade
shared by all three bulk-rebuild implementations, abstracted over the row
type and entry builders. A serving row overwrites `currentServing` (a later
serving row wins — the tolerated ambiguity the spec notes); waiting and
completed rows are appended to their lists. -/
def csInsert {ι : Type} (st : ι → Status) (fsv fwt fcp : ι → DEntry)
    (cs : CounterState) (item : ι) : CounterState :=
  match st item with
  | .serving => { cs with currentServing := some (fsv item) }
  | .waiting => { cs with waitingQueue := cs.waitingQueue ++ [fwt item] }
  | .completed => { cs with recentlyServed := cs.recentlyServed ++ [fcp item] }

/-- One step of the grouping fold: find or create the row's counter record
(`if (!organized[key]) organized[key] = {...}`), then insert the row. -/
def groupStep {ι : Type} (key : ι → Nat) (mkEmpty : ι → CounterState)
    (ins : Nat → CounterState → ι → CounterState)
    (acc : List (Nat × CounterState)) (item : ι) : List (Nat × CounterState) :=
  let k := key item
  match alookup acc k with
  | some cs => aset acc k (ins k cs item)
  | none => acc ++ [(k, ins k (mkEmpty item) item)]

/-- The grouping fold shared by the bulk-rebuild implementations: group rows
by counter key into a record keyed by counter id. (JS enumerates integer-like
object keys in ascending order; the enumeration order of distinct counters is
not modelled — the claims concern single-counter inputs, and lookups are
order-independent.) -/
def groupRows {ι : Type} (key : ι → Nat) (mkEmpty : ι → CounterState)
    (ins : Nat → CounterState → ι → CounterState) (data : List ι) :
    List (Nat × CounterState) :=
  data.foldl (groupStep key mkEmpty ins) []

/-- The ascending comparator `(a, b) => +new Date(a.timestamp) - +new
Date(b.timestamp)` read as a total preorder. -/
def byTimeAsc (a b : DEntry) : Bool :=
  a.timestamp ≤ b.timestamp

/-- The descending comparator `(a, b) => +new Date(b.timestamp) - +new
Date(a.timestamp)` read as a total preorder. -/
def byTimeDesc (a b : DEntry) : Bool :=
  b.timestamp ≤ a.timestamp

/-- Sorting pass (part_003 lines 89-91 / 148-151, part_000 lines 959-969):
waiting ascending by timestamp, recently-served descending. JS `sort` with a
numeric comparator is stable, as is `mergeSort`. -/
def sortCS (cs : CounterState) : CounterState :=
  { cs with
    waitingQueue := cs.waitingQueue.mergeSort byTimeAsc
    recentlyServed := cs.recentlyServed.mergeSort byTimeDesc }

/-- Promotion pass (part_003 lines 93-96 / 153-157, part_000 lines 971-979):
with nobody serving and a nonempty waiting queue, spread-copy the first
waiting entry with `isNext = true` into `currentServing`. -/
def promoteCS (cs : CounterState) : CounterState :=
  match cs.currentServing, cs.waitingQueue with
  | none, w :: _ => { cs with currentServing := some { w with isNext := true } }
  | _, _ => cs

/-- Inserting one part_003 row under counter `k` at current time `now`. -/
def insRow (now k : Nat) (cs : CounterState) (it : QueueItem) : CounterState :=
  csInsert (fun i => i.status) (dispOf k now) (dispOf k now) (dispServed k now)
    cs it

/-- `processQueueData` (part_003 lines 105-160): group all rows by their own
counter id, then per counter sort both lists and promote. -/
def processQueueData (now : Nat) (data : List QueueItem) :
    List (Nat × CounterState) :=
  (groupRows (fun it => it.service_counter_id) (fun it => emptyCS it.counter)
      (insRow now) data).map (fun p => (p.1, promoteCS (sortCS p.2)))

/-- `processQueueListUpdate` (part_003 lines 39-100): authoritative full-list
replacement for one counter — reset that counter's lists (preserving any
existing counterInfo), insert every pushed row under that counter id, sort
and promote that counter only; other counters untouched. -/
def processQueueListUpdate (now counterId : Nat) (queues : List QueueItem)
    (prev : List (Nat × CounterState)) : List (Nat × CounterState) :=
  let info := match alookup prev counterId with
              | some cs => cs.counterInfo
              | none => none
  let cs := promoteCS (sortCS (queues.foldl (insRow now counterId) (emptyCS info)))
  match alookup prev counterId with
  | some _ => aset prev counterId cs
  | none => prev ++ [(counterId, cs)]

/-- A backend queue row as consumed by the older Display component
(`src/unnamed/part_000` lines 912-982), which reads `created_at` directly
(the rows it is fed always carry it; a missing one would be an invalid date
in JS). -/
structure QueueItemD where
  id : Nat
  service_counter_id : Nat
  queue_number : String
  customer_name : String
  status : Status
  created_at : Nat
  served_at : Option Nat
  counter : Option CounterMeta
deriving DecidableEq

/-- The display entry the older Display builds for a serving or waiting
row. -/
def dispOfD (cid : Nat) (item : QueueItemD) : DEntry :=
  { id := item.id
    queueNumber := item.queue_number
    name := item.customer_name
    counterNumber := cid
    timestamp := item.created_at
    isNext := false }

/-- The display entry the older Display builds for a completed row
(`item.served_at || item.created_at`). -/
def dispServedD (cid : Nat) (item : QueueItemD) : DEntry :=
  { dispOfD cid item with
    timestamp := item.served_at.getD item.created_at }

/-- Inserting one part_000 row under counter `k`. -/
def insRowD (k : Nat) (cs : CounterState) (it : QueueItemD) : CounterState :=
  csInsert (fun i => i.status) (dispOfD k) (dispOfD k) (dispServedD k) cs it

/-- The older `Display.processQueueData` (part_000 lines 912-982): the same
rebuild algorithm — group, sort ascending/descending, promote the first
waiting entry when nobody is serving. -/
def processQueueDataD (data : List QueueItemD) : List (Nat × CounterState) :=
  (groupRows (fun it => it.service_counter_id) (fun it => emptyCS it.counter)
      (fun k => insRowD k) data).map (fun p => (p.1, promoteCS (sortCS p.2)))

-- ----------------------------------------------------------------------
-- ControllerWrapper's patch-one-entry (src/unnamed/part_000)
-- ----------------------------------------------------------------------

/-- A processed queue row held in ControllerWrapper state (part_000 lines
1285-1292): ids normalised to strings. -/
structure CtrlItem where
  id : String
  queueNumber : String
  name : String
  status : Status
  timestamp : Nat
deriving DecidableEq

/-- A single-entry realtime patch payload (`data.queue` of a
ServiceQueueUpdated event, or `result.data` of an action response). -/
structure PatchItem where
  id : Nat
  queue_number : String
  customer_name : String
  status : Status
  updated_at : Option Nat
  created_at : Option Nat
deriving DecidableEq

/-- `new Date(u.updated_at || u.created_at)` (part_000 line 1382): first
present timestamp. (The claims only exercise patches that carry one; in JS a
patch with neither yields an invalid date.) -/
def patchTs (u : PatchItem) : Nat :=
  u.updated_at.getD (u.created_at.getD 0)

/-- The controller view model: the cached queue list, the currentServing
slot and the served-today count (part_000 lines 1225-1230). -/
structure CtrlVM where
  queue : List CtrlItem
  currentServing : Option CtrlItem
  totalServedToday : Nat
deriving DecidableEq

/-- The serving record `updateQueueState` installs for a serving-status patch
(part_000 lines 1390-1396). -/
def servingRecord (u : PatchItem) : CtrlItem :=
  { id := toString u.id
    queueNumber := u.queue_number
    name := u.customer_name
    status := .serving
    timestamp := patchTs u }

/-- The in-place overwrite `updateQueueState` performs on the queue row whose
id matches the patch (part_000 lines 1375-1385): status, number, name and
timestamp are replaced; other rows pass through. -/
def applyPatch (u : PatchItem) (item : CtrlItem) : CtrlItem :=
  if item.id = toString u.id then
    { item with
      status := u.status
      queueNumber := u.queue_number
      name := u.customer_name
      timestamp := patchTs u }
  else item

/-- `updateQueueState` (part_000 lines 1358-1405). Returns the new view model
and whether a full re-fetch (`loadQueue`) was triggered. A falsy id (0)
aborts. The unknown-id guard lives inside the queue updater callback; the
`currentServing` and served-count updates below it run regardless of whether
the id was found. -/
def updateQueueState (vm : CtrlVM) (u : PatchItem) : CtrlVM × Bool :=
  if u.id = 0 then (vm, false)
  else
    let uid := toString u.id
    let found := vm.queue.any (fun item => item.id = uid)
    let queue1 :=
      if found then vm.queue.map (applyPatch u)
      else vm.queue
    let serving1 :=
      if u.status = .serving then some (servingRecord u)
      else if u.status = .completed ∧
          vm.currentServing.map (fun c => c.id) = some uid then none
      else vm.currentServing
    let served1 :=
      if u.status = .completed then vm.totalServedToday + 1
      else vm.totalServedToday
    ({ queue := queue1
       currentServing := serving1
       totalServedToday := served1 },
     !found)

-- ----------------------------------------------------------------------
-- lodash throttle (api.ts lines 15-40)
-- ----------------------------------------------------------------------

/-- lodash debounce/throttle internal state — `throttle(f, wait)` is
debounce with leading and trailing edges and `maxWait = wait` — modelled from
lodash's documented behaviour and published implementation. `invocations`
records the times the wrapped function was actually invoked, i.e. the
outgoing fetches. -/
structure DebState where
  lastCallTime : Option Nat
  lastInvokeTime : Nat
  timerExpiry : Option Nat
  hasLastArgs : Bool
  invocations : List Nat
deriving DecidableEq

/-- The state before the throttled function is ever called. -/
def debInit : DebState := ⟨none, 0, none, false, []⟩

/-- lodash `shouldInvoke`: first call ever, or `wait` elapsed since the last
call, or (maxing) `maxWait = wait` elapsed since the last invocation. -/
def shouldInvoke (wait : Nat) (s : DebState) (t : Nat) : Bool :=
  match s.lastCallTime with
  | none => true
  | some c => wait ≤ t - c ∨ wait ≤ t - s.lastInvokeTime

/-- lodash `invokeFunc`: invoke the wrapped function, consuming the stored
arguments. -/
def invokeAt (s : DebState) (t : Nat) : DebState :=
  { s with
    lastInvokeTime := t
    hasLastArgs := false
    invocations := s.invocations ++ [t] }

/-- The throttled function called at time `t` (lodash `debounced`): record
the arguments and call time; on the leading edge, or — maxing — with a timer
already pending, restart the timer and invoke immediately; otherwise just
ensure a timer is pending. -/
def throttleCall (wait : Nat) (s : DebState) (t : Nat) : DebState :=
  let isInvoking := shouldInvoke wait s t
  let s1 := { s with hasLastArgs := true, lastCallTime := some t }
  if isInvoking = true then invokeAt { s1 with timerExpiry := some (t + wait) } t
  else
    match s1.timerExpiry with
    | none => { s1 with timerExpiry := some (t + wait) }
    | some _ => s1

/-- lodash `timerExpired` at time `t`: on the trailing edge invoke exactly
when arguments arrived since the last invocation; otherwise re-arm the timer
for the remaining wait. -/
def timerExpired (wait : Nat) (s : DebState) (t : Nat) : DebState :=
  if shouldInvoke wait s t = true then
    let s1 := { s with timerExpiry := none }
    if s1.hasLastArgs = true then invokeAt s1 t else s1
  else
    let c := s.lastCallTime.getD 0
    { s with
      timerExpiry :=
        some (t + min (wait - (t - c)) (wait - (t - s.lastInvokeTime))) }

/-- Drive the throttled function over discrete time: at each tick fire a due
timer, then process the calls arriving at that tick. -/
def throttleStep (wait : Nat) (calls : List Nat) (s : DebState) (t : Nat) :
    DebState :=
  let s1 := if s.timerExpiry = some t then timerExpired wait s t else s
  (calls.filter (fun c => c = t)).foldl (fun s2 _ => throttleCall wait s2 t) s1

/-- Run ticks `0..horizon`. `throttledListQueue` is this machine with
`wait = 1000`, `throttledFetchCounters` with `wait = 2000` (api.ts lines
15-40). -/
def throttleRun (wait : Nat) (calls : List Nat) (horizon : Nat) : DebState :=
  (List.range (horizon + 1)).foldl (throttleStep wait calls) debInit

/-- The throttle state during a burst window that opened with a leading
invocation at `t0`: the timer is armed for `t0 + wait`, the last call was at
`c`, and `ap` says whether arguments are pending for the trailing edge. -/
def throttleMid (wait t0 c : Nat) (ap : Bool) : DebState :=
  ⟨some c, t0, some (t0 + wait), ap, [t0]⟩

-- ----------------------------------------------------------------------
-- Skip handler traffic and the Gateway (part_000 lines 1432-1483)
-- ----------------------------------------------------------------------

/-- A Gateway request issued by the controller's action handlers. -/
inductive GCall where
  | completeCall (queueId : Nat)
  | addPersonCall (customerName : String) (isPriority : Bool)
  | callNextCall (counterId : Nat)
  | recallCall (queueId : Nat)
deriving DecidableEq

/-- `parseInt` on an id string the client itself produced with `toString`:
such strings are plain decimal digit strings, on which `parseInt` returns the
decimal value, computed here as a fold over the digits. -/
def parseId (s : String) : Nat :=
  s.data.foldl (fun acc c => acc * 10 + (c.toNat - 48)) 0

/-- The Gateway traffic of `handleComplete(id)` (part_000 lines 1432-1451):
exactly one complete request. -/
def handleCompleteCalls (id : String) : List GCall :=
  [.completeCall (parseId id)]

/-- The Gateway traffic of `handleSkip(id)` (part_000 lines 1453-1483): look
the entry up in the cached queue; complete it, then re-add a brand-new entry
with the same name (non-priority). An unknown id issues nothing; a falsy
(empty) name suppresses the add. -/
def handleSkipCalls (queue : List CtrlItem) (id : String) : List GCall :=
  match queue.find? (fun q => q.id = id) with
  | none => []
  | some item =>
      handleCompleteCalls id ++
        (if item.name = "" then [] else [.addPersonCall item.name false])

/-- A Gateway-side queue entry. Modelled from the spec: the Gateway owns the
records and the client never invents identifiers. -/
structure GEntry where
  id : Nat
  name : String
  status : Status
deriving DecidableEq

/-- Gateway state. Modelled from the spec: identifiers of new entries are
assigned fresh by the Gateway. -/
structure GState where
  entries : List GEntry
  nextId : Nat
deriving DecidableEq

/-- Modelled from the spec: the Gateway's reaction to each client request
(the Gateway is an external collaborator with no code in this repository).
Lifecycle per spec section 3: waiting → serving → completed only; add
creates a fresh waiting entry with a Gateway-assigned identifier; call-next
promotes a waiting entry to serving; recall does not change status. -/
def gatewayStep (g : GState) (c : GCall) : GState :=
  match c with
  | .completeCall qid =>
      { g with entries := g.entries.map (fun e =>
          if e.id = qid then { e with status := .completed } else e) }
  | .addPersonCall n _ =>
      { entries := g.entries ++ [⟨g.nextId, n, .waiting⟩]
        nextId := g.nextId + 1 }
  | .callNextCall _ =>
      match g.entries.find? (fun e => e.status = .waiting) with
      | some w =>
          { g with entries := g.entries.map (fun e =>
              if e.id = w.id then { e with status := .serving } else e) }
      | none => g
  | .recallCall _ => g

/-- Run a sequence of Gateway requests. -/
def gatewayRun (g : GState) (cs : List GCall) : GState :=
  cs.foldl gatewayStep g

-- ----------------------------------------------------------------------
-- Theorems
-- ----------------------------------------------------------------------

theorem isFailure_failureResult (m : Option String) (fb : String)
    (h : fb ≠ "") : IsFailure (failureResult m fb) := by
  refine ⟨rfl, orFallback m fb, rfl, ?_⟩
  cases m with
  | none => simpa [orFallback] using h
  | some s =>
      by_cases hs : s = ""
      · simpa [orFallback, hs] using h
      · simp [orFallback, hs]

/-- C9: the logout operation always clears the stored bearer credential and
removes the default authorization header, in the success branch and in the
failure branch alike — even when the Gateway's logout request fails, the
credential is removed and subsequent requests carry no authorization
header. -/
theorem c9_logout_clears_credential (o : Outcome) (s : Session) :
    (logout o s).1.authHeader = none ∧ (logout o s).1.storedToken = none := by
  cases o <;> simp [logout, setAuthToken]

/-- C10: every Gateway operation exposed by the client is total with respect
to transport failures — on any request error it returns a well-formed result
with success = false and a non-empty message (the backend-provided message,
or the generic fallback when that is absent or empty). -/
theorem c10_total_on_transport_errors (m : Option String) (s : Session) :
    IsFailure (login (.err m) s).2 ∧ IsFailure (logout (.err m) s).2 ∧
    IsFailure (listQueue (.err m)) ∧ IsFailure (addPerson (.err m)) ∧
    IsFailure (callNext (.err m)) ∧ IsFailure (recallPerson (.err m)) ∧
    IsFailure (completeQueue (.err m)) ∧ IsFailure (fetchCounters (.err m)) ∧
    IsFailure (removePerson (.err m)) :=
  ⟨isFailure_failureResult m "Login failed" (by decide),
   isFailure_failureResult m "Logout failed" (by decide),
   isFailure_failureResult m "Failed to fetch queue" (by decide),
   isFailure_failureResult m "Failed to add person" (by decide),
   isFailure_failureResult m "Failed to call next person" (by decide),
   isFailure_failureResult m "Failed to recall person" (by decide),
   isFailure_failureResult m "Failed to complete queue" (by decide),
   isFailure_failureResult m "Failed to fetch counters" (by decide),
   isFailure_failureResult m "Failed to remove person" (by decide)⟩

theorem applyPatch_id (u : PatchItem) (x : CtrlItem) :
    (applyPatch u x).id = x.id := by
  unfold applyPatch
  split <;> rfl

theorem applyPatch_applyPatch (u : PatchItem) (x : CtrlItem) :
    applyPatch u (applyPatch u x) = applyPatch u x := by
  unfold applyPatch
  by_cases h : x.id = toString u.id <;> simp [h]

theorem any_map_applyPatch (u : PatchItem) (l : List CtrlItem) :
    ((l.map (applyPatch u)).any (fun item => item.id = toString u.id)) =
      (l.any (fun item => item.id = toString u.id)) := by
  induction l with
  | nil => rfl
  | cons a l ih => simp [applyPatch_id, ih]

/-- Characterisation of `updateQueueState` when the patched id is present in
the cached queue. -/
theorem updateQueueState_found (vm : CtrlVM) (u : PatchItem)
    (hid : u.id ≠ 0)
    (hmem : vm.queue.any (fun item => item.id = toString u.id) = true) :
    updateQueueState vm u =
      ({ queue := vm.queue.map (applyPatch u)
         currentServing :=
           if u.status = .serving then some (servingRecord u)
           else if u.status = .completed ∧
               vm.currentServing.map (fun c => c.id) = some (toString u.id)
             then none
           else vm.currentServing
         totalServedToday :=
           if u.status = .completed then vm.totalServedToday + 1
           else vm.totalServedToday },
       false) := by
  simp [updateQueueState, hid, hmem]

/-- Characterisation of `updateQueueState` when the patched id is absent from
the cached queue: the queue is untouched and a re-fetch is signalled, but the
currentServing slot and the served-today count are still updated. -/
theorem updateQueueState_missing (vm : CtrlVM) (u : PatchItem)
    (hid : u.id ≠ 0)
    (habs : vm.queue.any (fun item => item.id = toString u.id) = false) :
    updateQueueState vm u =
      ({ queue := vm.queue
         currentServing :=
           if u.status = .serving then some (servingRecord u)
           else if u.status = .completed ∧
               vm.currentServing.map (fun c => c.id) = some (toString u.id)
             then none
           else vm.currentServing
         totalServedToday :=
           if u.status = .completed then vm.totalServedToday + 1
           else vm.totalServedToday },
       true) := by
  simp [updateQueueState, hid, habs]

/-- C5 counterexample: a completed-status patch whose id is present in the
cached queue is not idempotent — the second application increments the
served-today count again, so the view model after two applications differs
from the view model after one. -/
theorem c5_counterexample :
    (let vm : CtrlVM := ⟨[⟨"1", "P1", "Ana", Status.waiting, 5⟩], none, 0⟩
     let u : PatchItem := ⟨1, "P1", "Ana", Status.completed, some 6, some 5⟩
     (vm.queue.any (fun item => item.id = toString u.id)) = true ∧
     (updateQueueState (updateQueueState vm u).1 u).1 ≠
       (updateQueueState vm u).1 ∧
     (updateQueueState vm u).1.totalServedToday = 1 ∧
     (updateQueueState (updateQueueState vm u).1 u).1.totalServedToday = 2) := by
  decide

/-- C5 amended: for a patch whose entry id is present in the cached queue,
patch-one-entry is idempotent on the queue list and on the currentServing
slot; the full view model is idempotent exactly when the patch status is not
completed, because a completed patch increments the served-today count on
every application. -/
theorem c5_patch_idempotence (vm : CtrlVM) (u : PatchItem)
    (hid : u.id ≠ 0)
    (hmem : vm.queue.any (fun item => item.id = toString u.id) = true) :
    (updateQueueState (updateQueueState vm u).1 u).1.queue =
      (updateQueueState vm u).1.queue ∧
    (updateQueueState (updateQueueState vm u).1 u).1.currentServing =
      (updateQueueState vm u).1.currentServing ∧
    (u.status ≠ .completed →
      (updateQueueState (updateQueueState vm u).1 u).1 =
        (updateQueueState vm u).1) ∧
    (u.status = .completed →
      (updateQueueState (updateQueueState vm u).1 u).1.totalServedToday =
        (updateQueueState vm u).1.totalServedToday + 1) := by
  have h1 := updateQueueState_found vm u hid hmem
  have hmem1 : ((updateQueueState vm u).1.queue.any
      (fun item => item.id = toString u.id)) = true := by
    rw [h1]
    show ((vm.queue.map (applyPatch u)).any
      (fun item => item.id = toString u.id)) = true
    rw [any_map_applyPatch]
    exact hmem
  have h2 := updateQueueState_found (updateQueueState vm u).1 u hid hmem1
  have hq : (vm.queue.map (applyPatch u)).map (applyPatch u) =
      vm.queue.map (applyPatch u) := by
    rw [List.map_map]
    refine List.map_congr_left (fun a _ => ?_)
    simp only [Function.comp_apply]
    exact applyPatch_applyPatch u a
  rw [h2, h1]
  refine ⟨?_, ?_, ?_, ?_⟩
  · simp [hq]
  · cases hst : u.status with
    | serving => simp [hst]
    | waiting => simp [hst]
    | completed =>
        by_cases hcs :
            vm.currentServing.map (fun c => c.id) = some (toString u.id)
        · simp [hst, hcs]
        · simp [hst, hcs]
  · intro hne
    cases hst : u.status with
    | serving => simp [hst, hq]
    | waiting => simp [hst, hq]
    | completed => exact absurd hst hne
  · intro hst
    simp [hst]

theorem c5_witness :
    ((⟨[⟨"1", "P1", "Ana", Status.waiting, 5⟩], none, 0⟩ : CtrlVM).queue.any
        (fun item => item.id = toString (1 : Nat)) = true) ∧
    (updateQueueState
        (updateQueueState ⟨[⟨"1", "P1", "Ana", Status.waiting, 5⟩], none, 0⟩
          ⟨1, "P3", "Ana", Status.serving, some 9, some 5⟩).1
        ⟨1, "P3", "Ana", Status.serving, some 9, some 5⟩).1 =
      (updateQueueState ⟨[⟨"1", "P1", "Ana", Status.waiting, 5⟩], none, 0⟩
        ⟨1, "P3", "Ana", Status.serving, some 9, some 5⟩).1 :=
  ⟨by decide,
   (c5_patch_idempotence ⟨[⟨"1", "P1", "Ana", Status.waiting, 5⟩], none, 0⟩
      ⟨1, "P3", "Ana", Status.serving, some 9, some 5⟩
      (by decide) (by decide)).2.2.1 (by decide)⟩

/-- C6 counterexample: a patch whose id is unknown to the cached queue does
leave the queue list unchanged and does trigger a re-fetch, but the partial
record is nevertheless inserted into the view-model state: a serving-status
patch is installed as `currentServing`, so the state is mutated with the
partial record, contrary to the claim. -/
theorem c6_counterexample :
    (let vm : CtrlVM := ⟨[⟨"1", "P1", "Ana", Status.waiting, 5⟩], none, 0⟩
     let u : PatchItem := ⟨2, "P2", "Bob", Status.serving, some 6, some 5⟩
     (vm.queue.any (fun item => item.id = toString u.id)) = false ∧
     (updateQueueState vm u).2 = true ∧
     (updateQueueState vm u).1.queue = vm.queue ∧
     (updateQueueState vm u).1.currentServing = some (servingRecord u) ∧
     vm.currentServing = none ∧
     (updateQueueState vm u).1 ≠ vm) := by
  decide

/-- C6 amended: a patch referencing an entry id absent from the cached queue
leaves the queue list unchanged and triggers a full re-fetch rather than
inserting the partial record into the queue list; however, the currentServing
slot and the served-today count are still updated from the patch — a
serving-status patch installs the partial record as currentServing, and a
completed-status patch increments the count. -/
theorem c6_stale_patch_guard (vm : CtrlVM) (u : PatchItem)
    (hid : u.id ≠ 0)
    (habs : vm.queue.any (fun item => item.id = toString u.id) = false) :
    (updateQueueState vm u).1.queue = vm.queue ∧
    (updateQueueState vm u).2 = true ∧
    ((updateQueueState vm u).1.currentServing =
      if u.status = .serving then some (servingRecord u)
      else if u.status = .completed ∧
          vm.currentServing.map (fun c => c.id) = some (toString u.id)
        then none
      else vm.currentServing) ∧
    ((updateQueueState vm u).1.totalServedToday =
      if u.status = .completed then vm.totalServedToday + 1
      else vm.totalServedToday) := by
  rw [updateQueueState_missing vm u hid habs]
  exact ⟨rfl, rfl, rfl, rfl⟩

theorem c6_witness :
    ((⟨[⟨"1", "P1", "Ana", Status.waiting, 5⟩], none, 0⟩ : CtrlVM).queue.any
        (fun item => item.id = toString (7 : Nat)) = false) ∧
    (updateQueueState ⟨[⟨"1", "P1", "Ana", Status.waiting, 5⟩], none, 0⟩
        ⟨7, "P7", "Eva", Status.waiting, some 9, some 5⟩).1.queue =
      [⟨"1", "P1", "Ana", Status.waiting, 5⟩] ∧
    (updateQueueState ⟨[⟨"1", "P1", "Ana", Status.waiting, 5⟩], none, 0⟩
        ⟨7, "P7", "Eva", Status.waiting, some 9, some 5⟩).2 = true :=
  ⟨by decide,
   (c6_stale_patch_guard ⟨[⟨"1", "P1", "Ana", Status.waiting, 5⟩], none, 0⟩
      ⟨7, "P7", "Eva", Status.waiting, some 9, some 5⟩
      (by decide) (by decide)).1,
   (c6_stale_patch_guard ⟨[⟨"1", "P1", "Ana", Status.waiting, 5⟩], none, 0⟩
      ⟨7, "P7", "Eva", Status.waiting, some 9, some 5⟩
      (by decide) (by decide)).2.1⟩

theorem counterState_ext {a b : CounterState}
    (h1 : a.currentServing = b.currentServing)
    (h2 : a.waitingQueue = b.waitingQueue)
    (h3 : a.recentlyServed = b.recentlyServed)
    (h4 : a.counterInfo = b.counterInfo) : a = b := by
  cases a; cases b; simp_all

theorem foldl_groupStep_single {ι : Type} (key : ι → Nat)
    (mkEmpty : ι → CounterState) (ins : Nat → CounterState → ι → CounterState)
    (k : Nat) :
    ∀ (L : List ι) (cs : CounterState), (∀ e ∈ L, key e = k) →
      L.foldl (groupStep key mkEmpty ins) [(k, cs)] =
        [(k, L.foldl (fun c e => ins k c e) cs)] := by
  intro L
  induction L with
  | nil => intro cs _; rfl
  | cons e es ih =>
      intro cs h
      have hk : key e = k := h e (by simp)
      have step : groupStep key mkEmpty ins [(k, cs)] e = [(k, ins k cs e)] := by
        simp [groupStep, hk, alookup, aset]
      simp only [List.foldl_cons, step]
      exact ih (ins k cs e) (fun x hx => h x (by simp [hx]))

theorem groupRows_single {ι : Type} (key : ι → Nat)
    (mkEmpty : ι → CounterState) (ins : Nat → CounterState → ι → CounterState)
    (k : Nat) (e : ι) (es : List ι) (h : ∀ x ∈ e :: es, key x = k) :
    groupRows key mkEmpty ins (e :: es) =
      [(k, es.foldl (fun c x => ins k c x) (ins k (mkEmpty e) e))] := by
  have hk : key e = k := h e (by simp)
  have step0 : groupStep key mkEmpty ins [] e = [(k, ins k (mkEmpty e) e)] := by
    simp [groupStep, hk, alookup]
  unfold groupRows
  simp only [List.foldl_cons, step0]
  exact foldl_groupStep_single key mkEmpty ins k es _
    (fun x hx => h x (by simp [hx]))

theorem foldl_csInsert_waiting {ι : Type} (st : ι → Status)
    (fsv fwt fcp : ι → DEntry) :
    ∀ (L : List ι) (cs : CounterState),
      (L.foldl (fun c e => csInsert st fsv fwt fcp c e) cs).waitingQueue =
        cs.waitingQueue ++ (L.filter (fun e => st e = .waiting)).map fwt := by
  intro L
  induction L with
  | nil => intro cs; simp
  | cons e es ih =>
      intro cs
      rw [List.foldl_cons]
      cases hst : st e with
      | serving =>
          have hstep : csInsert st fsv fwt fcp cs e =
              { cs with currentServing := some (fsv e) } := by
            simp [csInsert, hst]
          rw [hstep, ih]
          simp [List.filter_cons, hst]
      | waiting =>
          have hstep : csInsert st fsv fwt fcp cs e =
              { cs with waitingQueue := cs.waitingQueue ++ [fwt e] } := by
            simp [csInsert, hst]
          rw [hstep, ih]
          simp [List.filter_cons, hst]
      | completed =>
          have hstep : csInsert st fsv fwt fcp cs e =
              { cs with recentlyServed := cs.recentlyServed ++ [fcp e] } := by
            simp [csInsert, hst]
          rw [hstep, ih]
          simp [List.filter_cons, hst]

theorem foldl_csInsert_served {ι : Type} (st : ι → Status)
    (fsv fwt fcp : ι → DEntry) :
    ∀ (L : List ι) (cs : CounterState),
      (L.foldl (fun c e => csInsert st fsv fwt fcp c e) cs).recentlyServed =
        cs.recentlyServed ++ (L.filter (fun e => st e = .completed)).map fcp := by
  intro L
  induction L with
  | nil => intro cs; simp
  | cons e es ih =>
      intro cs
      rw [List.foldl_cons]
      cases hst : st e with
      | serving =>
          have hstep : csInsert st fsv fwt fcp cs e =
              { cs with currentServing := some (fsv e) } := by
            simp [csInsert, hst]
          rw [hstep, ih]
          simp [List.filter_cons, hst]
      | waiting =>
          have hstep : csInsert st fsv fwt fcp cs e =
              { cs with waitingQueue := cs.waitingQueue ++ [fwt e] } := by
            simp [csInsert, hst]
          rw [hstep, ih]
          simp [List.filter_cons, hst]
      | completed =>
          have hstep : csInsert st fsv fwt fcp cs e =
              { cs with recentlyServed := cs.recentlyServed ++ [fcp e] } := by
            simp [csInsert, hst]
          rw [hstep, ih]
          simp [List.filter_cons, hst]

theorem foldl_csInsert_info {ι : Type} (st : ι → Status)
    (fsv fwt fcp : ι → DEntry) :
    ∀ (L : List ι) (cs : CounterState),
      (L.foldl (fun c e => csInsert st fsv fwt fcp c e) cs).counterInfo =
        cs.counterInfo := by
  intro L
  induction L with
  | nil => intro cs; rfl
  | cons e es ih =>
      intro cs
      rw [List.foldl_cons]
      cases hst : st e with
      | serving =>
          have hstep : csInsert st fsv fwt fcp cs e =
              { cs with currentServing := some (fsv e) } := by
            simp [csInsert, hst]
          rw [hstep, ih]
      | waiting =>
          have hstep : csInsert st fsv fwt fcp cs e =
              { cs with waitingQueue := cs.waitingQueue ++ [fwt e] } := by
            simp [csInsert, hst]
          rw [hstep, ih]
      | completed =>
          have hstep : csInsert st fsv fwt fcp cs e =
              { cs with recentlyServed := cs.recentlyServed ++ [fcp e] } := by
            simp [csInsert, hst]
          rw [hstep, ih]

theorem getLast?_cons_or {α : Type} (a : α) (l : List α) (z : Option α) :
    ((a :: l).getLast?).or z = (l.getLast?).or (some a) := by
  cases l with
  | nil => simp
  | cons b bs =>
      rw [List.getLast?_cons_cons]
      cases h : (b :: bs).getLast? with
      | none => simp [List.getLast?_eq_none_iff] at h
      | some c => simp

theorem foldl_csInsert_serving {ι : Type} (st : ι → Status)
    (fsv fwt fcp : ι → DEntry) :
    ∀ (L : List ι) (cs : CounterState),
      (L.foldl (fun c e => csInsert st fsv fwt fcp c e) cs).currentServing =
        (((L.filter (fun e => st e = .serving)).map fsv).getLast?).or
          cs.currentServing := by
  intro L
  induction L with
  | nil => intro cs; simp
  | cons e es ih =>
      intro cs
      rw [List.foldl_cons]
      cases hst : st e with
      | serving =>
          have hstep : csInsert st fsv fwt fcp cs e =
              { cs with currentServing := some (fsv e) } := by
            simp [csInsert, hst]
          rw [hstep, ih]
          simp only [List.filter_cons, hst, decide_eq_true_eq, if_true,
            decide_true_eq_true, ite_true]
          rw [List.map_cons, getLast?_cons_or]
      | waiting =>
          have hstep : csInsert st fsv fwt fcp cs e =
              { cs with waitingQueue := cs.waitingQueue ++ [fwt e] } := by
            simp [csInsert, hst]
          rw [hstep, ih]
          simp [List.filter_cons, hst]
      | completed =>
          have hstep : csInsert st fsv fwt fcp cs e =
              { cs with recentlyServed := cs.recentlyServed ++ [fcp e] } := by
            simp [csInsert, hst]
          rw [hstep, ih]
          simp [List.filter_cons, hst]

/-- The per-counter state after folding all rows of a single-counter list:
last serving row wins `currentServing`; waiting and completed rows are
collected in list order. -/
theorem fold_insRow_char (now k : Nat) (L : List QueueItem)
    (info : Option CounterMeta) :
    L.foldl (insRow now k) (emptyCS info) =
      ⟨((L.filter (fun e => e.status = .serving)).map (dispOf k now)).getLast?,
       (L.filter (fun e => e.status = .waiting)).map (dispOf k now),
       (L.filter (fun e => e.status = .completed)).map (dispServed k now),
       info⟩ := by
  have hfold : L.foldl (insRow now k) (emptyCS info) =
      L.foldl (fun c e => csInsert (fun i => i.status) (dispOf k now)
        (dispOf k now) (dispServed k now) c e) (emptyCS info) := rfl
  rw [hfold]
  refine counterState_ext ?_ ?_ ?_ ?_
  · rw [foldl_csInsert_serving]; simp [emptyCS]
  · rw [foldl_csInsert_waiting]; simp [emptyCS]
  · rw [foldl_csInsert_served]; simp [emptyCS]
  · rw [foldl_csInsert_info]; rfl

/-- `processQueueData` on a nonempty single-counter list reduces to one
sorted-and-promoted counter state. -/
theorem processQueueData_single (now k : Nat) (e : QueueItem)
    (es : List QueueItem) (h : ∀ x ∈ e :: es, x.service_counter_id = k) :
    processQueueData now (e :: es) =
      [(k, promoteCS (sortCS
        ((e :: es).foldl (insRow now k) (emptyCS e.counter))))] := by
  unfold processQueueData
  rw [groupRows_single (fun it => it.service_counter_id)
    (fun it => emptyCS it.counter) (insRow now) k e es h]
  simp [List.foldl_cons]

theorem byTimeAsc_eq_true {a b : DEntry} :
    byTimeAsc a b = true ↔ a.timestamp ≤ b.timestamp := by
  simp [byTimeAsc]

theorem byTimeDesc_eq_true {a b : DEntry} :
    byTimeDesc a b = true ↔ b.timestamp ≤ a.timestamp := by
  simp [byTimeDesc]

theorem pairwise_of_mergeSort_byTimeAsc (l : List DEntry) :
    (l.mergeSort byTimeAsc).Pairwise
      (fun a b => a.timestamp ≤ b.timestamp) := by
  have h := @List.sorted_mergeSort DEntry byTimeAsc
    (fun a b c hab hbc => byTimeAsc_eq_true.mpr
      (Nat.le_trans (byTimeAsc_eq_true.mp hab) (byTimeAsc_eq_true.mp hbc)))
    (fun a b => by
      rcases Nat.le_total a.timestamp b.timestamp with h | h
      · exact (Bool.or_eq_true (byTimeAsc a b) (byTimeAsc b a)).mpr
          (Or.inl (byTimeAsc_eq_true.mpr h))
      · exact (Bool.or_eq_true (byTimeAsc a b) (byTimeAsc b a)).mpr
          (Or.inr (byTimeAsc_eq_true.mpr h))) l
  exact h.imp (fun hab => byTimeAsc_eq_true.mp hab)

theorem pairwise_of_mergeSort_byTimeDesc (l : List DEntry) :
    (l.mergeSort byTimeDesc).Pairwise
      (fun a b => b.timestamp ≤ a.timestamp) := by
  have h := @List.sorted_mergeSort DEntry byTimeDesc
    (fun a b c hab hbc => byTimeDesc_eq_true.mpr
      (Nat.le_trans (byTimeDesc_eq_true.mp hbc) (byTimeDesc_eq_true.mp hab)))
    (fun a b => by
      rcases Nat.le_total a.timestamp b.timestamp with h | h
      · exact (Bool.or_eq_true (byTimeDesc a b) (byTimeDesc b a)).mpr
          (Or.inr (byTimeDesc_eq_true.mpr h))
      · exact (Bool.or_eq_true (byTimeDesc a b) (byTimeDesc b a)).mpr
          (Or.inl (byTimeDesc_eq_true.mpr h))) l
  exact h.imp (fun hab => byTimeDesc_eq_true.mp hab)

/-- A list sorted (weakly) ascending by timestamp that is a permutation of a
strictly ascending target equals the target. -/
theorem eq_of_perm_sorted_asc {l tgt : List DEntry} (hp : l.Perm tgt)
    (hsl : l.Pairwise (fun a b => a.timestamp ≤ b.timestamp))
    (hst : tgt.Pairwise (fun a b => a.timestamp < b.timestamp)) : l = tgt := by
  haveI : IsAntisymm DEntry (fun a b => a.timestamp < b.timestamp) :=
    ⟨fun a b h1 h2 => absurd h2 (Nat.lt_asymm h1)⟩
  have htgtnd : (tgt.map (fun d => d.timestamp)).Nodup :=
    (List.pairwise_map.mpr hst).imp Nat.ne_of_lt
  have hlnd : (l.map (fun d => d.timestamp)).Nodup :=
    ((hp.map (fun d => d.timestamp)).nodup_iff).mpr htgtnd
  have hne : l.Pairwise (fun a b => a.timestamp ≠ b.timestamp) :=
    List.pairwise_map.mp hlnd
  have hsl' : l.Pairwise (fun a b => a.timestamp < b.timestamp) :=
    (hsl.and hne).imp (fun h => lt_of_le_of_ne h.1 h.2)
  exact List.eq_of_perm_of_sorted hp hsl' hst

/-- The descending counterpart. -/
theorem eq_of_perm_sorted_desc {l tgt : List DEntry} (hp : l.Perm tgt)
    (hsl : l.Pairwise (fun a b => b.timestamp ≤ a.timestamp))
    (hst : tgt.Pairwise (fun a b => b.timestamp < a.timestamp)) : l = tgt := by
  haveI : IsAntisymm DEntry (fun a b => b.timestamp < a.timestamp) :=
    ⟨fun a b h1 h2 => absurd h2 (Nat.lt_asymm h1)⟩
  have htgtnd : (tgt.map (fun d => d.timestamp)).Nodup :=
    (List.pairwise_map.mpr hst).imp (fun h => (Nat.ne_of_lt h).symm)
  have hlnd : (l.map (fun d => d.timestamp)).Nodup :=
    ((hp.map (fun d => d.timestamp)).nodup_iff).mpr htgtnd
  have hne : l.Pairwise (fun a b => a.timestamp ≠ b.timestamp) :=
    List.pairwise_map.mp hlnd
  have hsl' : l.Pairwise (fun a b => b.timestamp < a.timestamp) :=
    (hsl.and hne).imp (fun h => lt_of_le_of_ne h.1 h.2.symm)
  exact List.eq_of_perm_of_sorted hp hsl' hst

/-- `mergeSort byTimeAsc` of any permutation of a strictly ascending target
is the target. -/
theorem mergeSort_asc_eq_of_perm {l tgt : List DEntry} (hp : l.Perm tgt)
    (hst : tgt.Pairwise (fun a b => a.timestamp < b.timestamp)) :
    l.mergeSort byTimeAsc = tgt :=
  eq_of_perm_sorted_asc ((List.mergeSort_perm l byTimeAsc).trans hp)
    (pairwise_of_mergeSort_byTimeAsc l) hst

/-- `mergeSort byTimeDesc` of any permutation of a strictly descending
target is the target. -/
theorem mergeSort_desc_eq_of_perm {l tgt : List DEntry} (hp : l.Perm tgt)
    (hst : tgt.Pairwise (fun a b => b.timestamp < a.timestamp)) :
    l.mergeSort byTimeDesc = tgt :=
  eq_of_perm_sorted_desc ((List.mergeSort_perm l byTimeDesc).trans hp)
    (pairwise_of_mergeSort_byTimeDesc l) hst

theorem alookup_cons {κ β : Type} [DecidableEq κ] (a : κ) (b : β)
    (l : List (κ × β)) (k : κ) :
    alookup ((a, b) :: l) k = if a = k then some b else alookup l k := rfl

theorem aset_cons {κ β : Type} [DecidableEq κ] (a : κ) (b : β)
    (l : List (κ × β)) (k : κ) (w : β) :
    aset ((a, b) :: l) k w =
      (if a = k then (k, w) else (a, b)) :: aset l k w := rfl

theorem alookup_aset_self {κ β : Type} [DecidableEq κ] (l : List (κ × β))
    (k : κ) (w : β) :
    alookup (aset l k w) k = (alookup l k).map (fun _ => w) := by
  induction l with
  | nil => rfl
  | cons p rest ih =>
      obtain ⟨a, b⟩ := p
      rw [aset_cons]
      by_cases h : a = k
      · subst h
        rw [if_pos rfl]
        simp [alookup_cons]
      · rw [if_neg h]
        simp [alookup_cons, h, ih]

theorem alookup_append_right {κ β : Type} [DecidableEq κ] (l : List (κ × β))
    (k : κ) (v : β) (h : alookup l k = none) :
    alookup (l ++ [(k, v)]) k = some v := by
  induction l with
  | nil => simp [alookup]
  | cons p rest ih =>
      obtain ⟨a, b⟩ := p
      rw [List.cons_append, alookup_cons]
      rw [alookup_cons] at h
      by_cases hak : a = k
      · rw [if_pos hak] at h
        exact absurd h (by simp)
      · rw [if_neg hak] at h ⊢
        exact ih h

/-- The counter rebuilt by `processQueueListUpdate` is found under its id,
and is the sorted-and-promoted fold of the pushed rows over an empty state
that only keeps the previously cached counterInfo. -/
theorem processQueueListUpdate_at (now k : Nat) (queues : List QueueItem)
    (prev : List (Nat × CounterState)) :
    alookup (processQueueListUpdate now k queues prev) k =
      some (promoteCS (sortCS (queues.foldl (insRow now k)
        (emptyCS (match alookup prev k with
                  | some cs => cs.counterInfo
                  | none => none))))) := by
  unfold processQueueListUpdate
  cases h : alookup prev k with
  | some cs =>
      simp only [h]
      rw [alookup_aset_self, h]
      rfl
  | none =>
      simp only [h]
      exact alookup_append_right prev k _ h

/-- The rebuilt counter state for a single-counter row multiset holding one
serving row, three waiting rows with strictly increasing creation times, and
two completed rows. -/
theorem rebuild_char (now k : Nat) (L : List QueueItem)
    (info : Option CounterMeta) (s w1 w2 w3 c1 c2 : QueueItem)
    (t1 t2 t3 : Nat)
    (hL : L.Perm [s, w1, w2, w3, c1, c2])
    (hs : s.status = .serving)
    (hw1 : w1.status = .waiting) (hw2 : w2.status = .waiting)
    (hw3 : w3.status = .waiting)
    (hc1 : c1.status = .completed) (hc2 : c2.status = .completed)
    (ht1 : w1.created_at = some t1) (ht2 : w2.created_at = some t2)
    (ht3 : w3.created_at = some t3)
    (h12 : t1 < t2) (h23 : t2 < t3) :
    ∃ rs, promoteCS (sortCS (L.foldl (insRow now k) (emptyCS info))) =
        ⟨some (dispOf k now s),
         [dispOf k now w1, dispOf k now w2, dispOf k now w3], rs, info⟩ ∧
      rs.Perm [dispServed k now c1, dispServed k now c2] ∧
      rs.Pairwise (fun a b => b.timestamp ≤ a.timestamp) := by
  have hfs : L.filter (fun e => e.status = .serving) = [s] := by
    have hp := hL.filter (fun e => decide (e.status = .serving))
    have : List.filter (fun e => decide (e.status = Status.serving))
        [s, w1, w2, w3, c1, c2] = [s] := by
      simp [List.filter_cons, hs, hw1, hw2, hw3, hc1, hc2]
    rw [this] at hp
    exact List.perm_singleton.mp hp
  have hfw : (L.filter (fun e => e.status = .waiting)).Perm [w1, w2, w3] := by
    have hp := hL.filter (fun e => decide (e.status = .waiting))
    have : List.filter (fun e => decide (e.status = Status.waiting))
        [s, w1, w2, w3, c1, c2] = [w1, w2, w3] := by
      simp [List.filter_cons, hs, hw1, hw2, hw3, hc1, hc2]
    rwa [this] at hp
  have hfc : (L.filter (fun e => e.status = .completed)).Perm [c1, c2] := by
    have hp := hL.filter (fun e => decide (e.status = .completed))
    have : List.filter (fun e => decide (e.status = Status.completed))
        [s, w1, w2, w3, c1, c2] = [c1, c2] := by
      simp [List.filter_cons, hs, hw1, hw2, hw3, hc1, hc2]
    rwa [this] at hp
  have hts1 : (dispOf k now w1).timestamp = t1 := by simp [dispOf, tsOf, ht1]
  have hts2 : (dispOf k now w2).timestamp = t2 := by simp [dispOf, tsOf, ht2]
  have hts3 : (dispOf k now w3).timestamp = t3 := by simp [dispOf, tsOf, ht3]
  have hsorted : (((L.filter (fun e => e.status = .waiting)).map
      (dispOf k now)).mergeSort byTimeAsc) =
      [dispOf k now w1, dispOf k now w2, dispOf k now w3] := by
    refine mergeSort_asc_eq_of_perm (hfw.map (dispOf k now)) ?_
    simp only [List.pairwise_cons, List.mem_cons, List.not_mem_nil]
    refine ⟨?_, ?_, by simp⟩
    · intro x hx
      rcases hx with h | h | h
      · subst h; rw [hts1, hts2]; exact h12
      · subst h; rw [hts1, hts3]; exact Nat.lt_trans h12 h23
      · simp at h
    · intro x hx
      rcases hx with h | h
      · subst h; rw [hts2, hts3]; exact h23
      · simp at h
  rw [fold_insRow_char, hfs]
  refine ⟨((L.filter (fun e => e.status = .completed)).map
    (dispServed k now)).mergeSort byTimeDesc, ?_, ?_, ?_⟩
  · simp only [sortCS, hsorted]
    simp [promoteCS]
  · exact (List.mergeSort_perm _ byTimeDesc).trans (hfc.map (dispServed k now))
  · exact pairwise_of_mergeSort_byTimeDesc _

/-- The rebuilt counter state for a single-counter row multiset holding no
serving row and two waiting rows with increasing creation times: the earliest
waiting row is promoted with isNext and stays in the waiting queue. -/
theorem rebuild_promote_char (now k : Nat) (L : List QueueItem)
    (info : Option CounterMeta) (w1 w2 : QueueItem) (t1 t2 : Nat)
    (hL : L.Perm [w1, w2])
    (hw1 : w1.status = .waiting) (hw2 : w2.status = .waiting)
    (ht1 : w1.created_at = some t1) (ht2 : w2.created_at = some t2)
    (h12 : t1 < t2) :
    promoteCS (sortCS (L.foldl (insRow now k) (emptyCS info))) =
      ⟨some { dispOf k now w1 with isNext := true },
       [dispOf k now w1, dispOf k now w2], [], info⟩ := by
  have hfs : L.filter (fun e => e.status = .serving) = [] := by
    have hp := hL.filter (fun e => decide (e.status = .serving))
    have : List.filter (fun e => decide (e.status = Status.serving))
        [w1, w2] = [] := by
      simp [List.filter_cons, hw1, hw2]
    rw [this] at hp
    exact List.perm_nil.mp hp
  have hfw : (L.filter (fun e => e.status = .waiting)).Perm [w1, w2] := by
    have hp := hL.filter (fun e => decide (e.status = .waiting))
    have : List.filter (fun e => decide (e.status = Status.waiting))
        [w1, w2] = [w1, w2] := by
      simp [List.filter_cons, hw1, hw2]
    rwa [this] at hp
  have hfc : L.filter (fun e => e.status = .completed) = [] := by
    have hp := hL.filter (fun e => decide (e.status = .completed))
    have : List.filter (fun e => decide (e.status = Status.completed))
        [w1, w2] = [] := by
      simp [List.filter_cons, hw1, hw2]
    rw [this] at hp
    exact List.perm_nil.mp hp
  have hts1 : (dispOf k now w1).timestamp = t1 := by simp [dispOf, tsOf, ht1]
  have hts2 : (dispOf k now w2).timestamp = t2 := by simp [dispOf, tsOf, ht2]
  have hsorted : (((L.filter (fun e => e.status = .waiting)).map
      (dispOf k now)).mergeSort byTimeAsc) =
      [dispOf k now w1, dispOf k now w2] := by
    refine mergeSort_asc_eq_of_perm (hfw.map (dispOf k now)) ?_
    simp only [List.pairwise_cons, List.mem_cons, List.not_mem_nil]
    refine ⟨?_, by simp⟩
    intro x hx
    rcases hx with h | h
    · subst h; rw [hts1, hts2]; exact h12
    · simp at h
  rw [fold_insRow_char, hfs, hfc]
  simp only [sortCS, hsorted, List.map_nil]
  simp [promoteCS, List.mergeSort_nil]

theorem fold_insRowD_char (k : Nat) (L : List QueueItemD)
    (info : Option CounterMeta) :
    L.foldl (insRowD k) (emptyCS info) =
      ⟨((L.filter (fun e => e.status = .serving)).map (dispOfD k)).getLast?,
       (L.filter (fun e => e.status = .waiting)).map (dispOfD k),
       (L.filter (fun e => e.status = .completed)).map (dispServedD k),
       info⟩ := by
  have hfold : L.foldl (insRowD k) (emptyCS info) =
      L.foldl (fun c e => csInsert (fun i => i.status) (dispOfD k)
        (dispOfD k) (dispServedD k) c e) (emptyCS info) := rfl
  rw [hfold]
  refine counterState_ext ?_ ?_ ?_ ?_
  · rw [foldl_csInsert_serving]; simp [emptyCS]
  · rw [foldl_csInsert_waiting]; simp [emptyCS]
  · rw [foldl_csInsert_served]; simp [emptyCS]
  · rw [foldl_csInsert_info]; rfl

theorem processQueueDataD_single (k : Nat) (e : QueueItemD)
    (es : List QueueItemD) (h : ∀ x ∈ e :: es, x.service_counter_id = k) :
    processQueueDataD (e :: es) =
      [(k, promoteCS (sortCS
        ((e :: es).foldl (insRowD k) (emptyCS e.counter))))] := by
  unfold processQueueDataD
  rw [groupRows_single (fun it => it.service_counter_id)
    (fun it => emptyCS it.counter) (fun j => insRowD j) k e es h]
  simp [List.foldl_cons]

/-- The part_000 Display rebuild for a single-counter row multiset with no
serving row and two waiting rows with increasing creation times. -/
theorem rebuild_promote_charD (k : Nat) (L : List QueueItemD)
    (info : Option CounterMeta) (v1 v2 : QueueItemD)
    (hL : L.Perm [v1, v2])
    (hv1 : v1.status = .waiting) (hv2 : v2.status = .waiting)
    (h12 : v1.created_at < v2.created_at) :
    promoteCS (sortCS (L.foldl (insRowD k) (emptyCS info))) =
      ⟨some { dispOfD k v1 with isNext := true },
       [dispOfD k v1, dispOfD k v2], [], info⟩ := by
  have hfs : L.filter (fun e => e.status = .serving) = [] := by
    have hp := hL.filter (fun e => decide (e.status = .serving))
    have : List.filter (fun e => decide (e.status = Status.serving))
        [v1, v2] = [] := by
      simp [List.filter_cons, hv1, hv2]
    rw [this] at hp
    exact List.perm_nil.mp hp
  have hfw : (L.filter (fun e => e.status = .waiting)).Perm [v1, v2] := by
    have hp := hL.filter (fun e => decide (e.status = .waiting))
    have : List.filter (fun e => decide (e.status = Status.waiting))
        [v1, v2] = [v1, v2] := by
      simp [List.filter_cons, hv1, hv2]
    rwa [this] at hp
  have hfc : L.filter (fun e => e.status = .completed) = [] := by
    have hp := hL.filter (fun e => decide (e.status = .completed))
    have : List.filter (fun e => decide (e.status = Status.completed))
        [v1, v2] = [] := by
      simp [List.filter_cons, hv1, hv2]
    rw [this] at hp
    exact List.perm_nil.mp hp
  have hsorted : (((L.filter (fun e => e.status = .waiting)).map
      (dispOfD k)).mergeSort byTimeAsc) = [dispOfD k v1, dispOfD k v2] := by
    refine mergeSort_asc_eq_of_perm (hfw.map (dispOfD k)) ?_
    simp only [List.pairwise_cons, List.mem_cons, List.not_mem_nil]
    refine ⟨?_, by simp⟩
    intro x hx
    rcases hx with h | h
    · subst h; exact h12
    · simp at h
  rw [fold_insRowD_char, hfs, hfc]
  simp only [sortCS, hsorted, List.map_nil]
  simp [promoteCS, List.mergeSort_nil]

/-- C3: for a bulk entry list for one counter holding exactly one serving
row, three waiting rows with creation times t1 < t2 < t3 and two completed
rows, rebuild-one-counter — both the initial-load `processQueueData` and the
per-counter `processQueueListUpdate` — yields currentServing equal to the
serving row with isNext false, waitingQueue equal to the waiting rows in
ascending creation order, and recentlyServed equal to the completed rows
ordered newest-first by served-or-created time. -/
theorem c3_rebuild_correctness (now k : Nat)
    (prev : List (Nat × CounterState)) (L : List QueueItem)
    (s w1 w2 w3 c1 c2 : QueueItem) (t1 t2 t3 : Nat)
    (hL : L.Perm [s, w1, w2, w3, c1, c2])
    (hcid : ∀ x ∈ L, x.service_counter_id = k)
    (hs : s.status = .serving)
    (hw1 : w1.status = .waiting) (hw2 : w2.status = .waiting)
    (hw3 : w3.status = .waiting)
    (hc1 : c1.status = .completed) (hc2 : c2.status = .completed)
    (ht1 : w1.created_at = some t1) (ht2 : w2.created_at = some t2)
    (ht3 : w3.created_at = some t3)
    (h12 : t1 < t2) (h23 : t2 < t3) :
    (∃ cs, processQueueData now L = [(k, cs)] ∧
       cs.currentServing = some (dispOf k now s) ∧
       (dispOf k now s).isNext = false ∧
       cs.waitingQueue =
         [dispOf k now w1, dispOf k now w2, dispOf k now w3] ∧
       cs.recentlyServed.Perm [dispServed k now c1, dispServed k now c2] ∧
       cs.recentlyServed.Pairwise (fun a b => b.timestamp ≤ a.timestamp)) ∧
    (∃ cs, alookup (processQueueListUpdate now k L prev) k = some cs ∧
       cs.currentServing = some (dispOf k now s) ∧
       (dispOf k now s).isNext = false ∧
       cs.waitingQueue =
         [dispOf k now w1, dispOf k now w2, dispOf k now w3] ∧
       cs.recentlyServed.Perm [dispServed k now c1, dispServed k now c2] ∧
       cs.recentlyServed.Pairwise (fun a b => b.timestamp ≤ a.timestamp)) := by
  constructor
  · cases L with
    | nil =>
        have := hL.length_eq
        simp at this
    | cons e es =>
        rw [processQueueData_single now k e es hcid]
        obtain ⟨rs, hchar, hperm, hsorted⟩ :=
          rebuild_char now k (e :: es) e.counter s w1 w2 w3 c1 c2 t1 t2 t3
            hL hs hw1 hw2 hw3 hc1 hc2 ht1 ht2 ht3 h12 h23
        rw [hchar]
        exact ⟨_, rfl, rfl, rfl, rfl, hperm, hsorted⟩
  · rw [processQueueListUpdate_at]
    obtain ⟨rs, hchar, hperm, hsorted⟩ :=
      rebuild_char now k L
        (match alookup prev k with
         | some cs => cs.counterInfo
         | none => none) s w1 w2 w3 c1 c2 t1 t2 t3
        hL hs hw1 hw2 hw3 hc1 hc2 ht1 ht2 ht3 h12 h23
    rw [hchar]
    exact ⟨_, rfl, rfl, rfl, rfl, hperm, hsorted⟩

theorem c3_witness :
    ∃ cs, processQueueData 0
        [⟨10, 1, "P1", "S", false, .serving, some 50, none, none, none⟩,
         ⟨11, 1, "P2", "W1", false, .waiting, some 100, none, none, none⟩,
         ⟨12, 1, "P3", "W2", false, .waiting, some 200, none, none, none⟩,
         ⟨13, 1, "P4", "W3", false, .waiting, some 300, none, none, none⟩,
         ⟨14, 1, "P5", "C1", false, .completed, some 10, some 400, none, none⟩,
         ⟨15, 1, "P6", "C2", false, .completed, some 20, some 500, none,
           none⟩] = [(1, cs)] ∧
      cs.currentServing = some (dispOf 1 0
        ⟨10, 1, "P1", "S", false, .serving, some 50, none, none, none⟩) ∧
      cs.waitingQueue =
        [dispOf 1 0 ⟨11, 1, "P2", "W1", false, .waiting, some 100, none,
           none, none⟩,
         dispOf 1 0 ⟨12, 1, "P3", "W2", false, .waiting, some 200, none,
           none, none⟩,
         dispOf 1 0 ⟨13, 1, "P4", "W3", false, .waiting, some 300, none,
           none, none⟩] := by
  obtain ⟨⟨cs, h1, h2, _, h4, _, _⟩, _⟩ :=
    c3_rebuild_correctness 0 1 []
      [⟨10, 1, "P1", "S", false, .serving, some 50, none, none, none⟩,
       ⟨11, 1, "P2", "W1", false, .waiting, some 100, none, none, none⟩,
       ⟨12, 1, "P3", "W2", false, .waiting, some 200, none, none, none⟩,
       ⟨13, 1, "P4", "W3", false, .waiting, some 300, none, none, none⟩,
       ⟨14, 1, "P5", "C1", false, .completed, some 10, some 400, none, none⟩,
       ⟨15, 1, "P6", "C2", false, .completed, some 20, some 500, none, none⟩]
      ⟨10, 1, "P1", "S", false, .serving, some 50, none, none, none⟩
      ⟨11, 1, "P2", "W1", false, .waiting, some 100, none, none, none⟩
      ⟨12, 1, "P3", "W2", false, .waiting, some 200, none, none, none⟩
      ⟨13, 1, "P4", "W3", false, .waiting, some 300, none, none, none⟩
      ⟨14, 1, "P5", "C1", false, .completed, some 10, some 400, none, none⟩
      ⟨15, 1, "P6", "C2", false, .completed, some 20, some 500, none, none⟩
      100 200 300 (List.Perm.refl _) (by decide) rfl rfl rfl rfl rfl rfl
      rfl rfl rfl (by decide) (by decide)
  exact ⟨cs, h1, h2, h4⟩

/-- C4: for a bulk entry list for one counter with zero serving rows and two
waiting rows with creation times t1 < t2, rebuild-one-counter — both the
part_003 `processQueueData` and the part_000 `Display.processQueueData` —
sets currentServing to the earliest waiting row with isNext = true, and that
row remains present (in first position) in waitingQueue: the reconciler does
not remove it, first-position exclusion being a rendering-time slice. -/
theorem c4_next_promotion (now k : Nat) (L : List QueueItem)
    (w1 w2 : QueueItem) (t1 t2 : Nat)
    (LD : List QueueItemD) (v1 v2 : QueueItemD)
    (hL : L.Perm [w1, w2]) (hcid : ∀ x ∈ L, x.service_counter_id = k)
    (hw1 : w1.status = .waiting) (hw2 : w2.status = .waiting)
    (ht1 : w1.created_at = some t1) (ht2 : w2.created_at = some t2)
    (h12 : t1 < t2)
    (hLD : LD.Perm [v1, v2]) (hcidD : ∀ x ∈ LD, x.service_counter_id = k)
    (hv1 : v1.status = .waiting) (hv2 : v2.status = .waiting)
    (hu : v1.created_at < v2.created_at) :
    (∃ cs, processQueueData now L = [(k, cs)] ∧
       cs.currentServing = some { dispOf k now w1 with isNext := true } ∧
       cs.waitingQueue = [dispOf k now w1, dispOf k now w2] ∧
       dispOf k now w1 ∈ cs.waitingQueue) ∧
    (∃ cs, processQueueDataD LD = [(k, cs)] ∧
       cs.currentServing = some { dispOfD k v1 with isNext := true } ∧
       cs.waitingQueue = [dispOfD k v1, dispOfD k v2] ∧
       dispOfD k v1 ∈ cs.waitingQueue) := by
  constructor
  · cases L with
    | nil =>
        have := hL.length_eq
        simp at this
    | cons e es =>
        rw [processQueueData_single now k e es hcid]
        rw [rebuild_promote_char now k (e :: es) e.counter w1 w2 t1 t2
          hL hw1 hw2 ht1 ht2 h12]
        exact ⟨_, rfl, rfl, rfl, by simp⟩
  · cases LD with
    | nil =>
        have := hLD.length_eq
        simp at this
    | cons e es =>
        rw [processQueueDataD_single k e es hcidD]
        rw [rebuild_promote_charD k (e :: es) e.counter v1 v2
          hLD hv1 hv2 hu]
        exact ⟨_, rfl, rfl, rfl, by simp⟩

theorem c4_witness :
    ∃ cs, processQueueData 0
        [⟨21, 3, "P1", "A", false, .waiting, some 100, none, none, none⟩,
         ⟨22, 3, "P2", "B", false, .waiting, some 200, none, none, none⟩] =
        [(3, cs)] ∧
      cs.currentServing = some { dispOf 3 0
        ⟨21, 3, "P1", "A", false, .waiting, some 100, none, none, none⟩ with
          isNext := true } ∧
      dispOf 3 0 ⟨21, 3, "P1", "A", false, .waiting, some 100, none, none,
        none⟩ ∈ cs.waitingQueue := by
  obtain ⟨⟨cs, h1, h2, _, h4⟩, _⟩ :=
    c4_next_promotion 0 3
      [⟨21, 3, "P1", "A", false, .waiting, some 100, none, none, none⟩,
       ⟨22, 3, "P2", "B", false, .waiting, some 200, none, none, none⟩]
      ⟨21, 3, "P1", "A", false, .waiting, some 100, none, none, none⟩
      ⟨22, 3, "P2", "B", false, .waiting, some 200, none, none, none⟩
      100 200
      [⟨21, 3, "P1", "A", .waiting, 100, none, none⟩,
       ⟨22, 3, "P2", "B", .waiting, 200, none, none⟩]
      ⟨21, 3, "P1", "A", .waiting, 100, none, none⟩
      ⟨22, 3, "P2", "B", .waiting, 200, none, none⟩
      (List.Perm.refl _) (by decide) rfl rfl rfl rfl (by decide)
      (List.Perm.refl _) (by decide) rfl rfl (by decide)
  exact ⟨cs, h1, h2, h4⟩

theorem complete_establishes (xid : Nat) (g : GState) :
    ∀ e ∈ (gatewayStep g (.completeCall xid)).entries,
      e.id = xid → e.status = .completed := by
  intro e he hid
  simp only [gatewayStep, List.mem_map] at he
  obtain ⟨e0, he0, rfl⟩ := he
  by_cases hq : e0.id = xid
  · simp [hq]
  · rw [if_neg hq] at hid ⊢
    exact absurd hid hq

theorem gatewayStep_preserves (xid : Nat) (g : GState) (c : GCall)
    (h1 : ∀ e ∈ g.entries, e.id = xid → e.status = .completed)
    (h2 : xid < g.nextId) :
    (∀ e ∈ (gatewayStep g c).entries, e.id = xid → e.status = .completed) ∧
      xid < (gatewayStep g c).nextId := by
  cases c with
  | completeCall qid =>
      refine ⟨?_, h2⟩
      intro e he hid
      simp only [gatewayStep, List.mem_map] at he
      obtain ⟨e0, he0, rfl⟩ := he
      by_cases hq : e0.id = qid
      · simp [hq]
      · rw [if_neg hq] at hid ⊢
        exact h1 e0 he0 hid
  | addPersonCall n p =>
      constructor
      · intro e he hid
        simp only [gatewayStep, List.mem_append, List.mem_singleton] at he
        rcases he with he | he
        · exact h1 e he hid
        · subst he
          simp only at hid
          omega
      · simp only [gatewayStep]
        omega
  | callNextCall cid =>
      constructor
      · intro e he hid
        simp only [gatewayStep] at he ⊢
        cases hf : g.entries.find? (fun e => e.status = .waiting) with
        | none =>
            rw [hf] at he
            exact h1 e he hid
        | some w =>
            rw [hf] at he
            simp only [List.mem_map] at he
            obtain ⟨e0, he0, rfl⟩ := he
            by_cases hq : e0.id = w.id
            · exfalso
              rw [if_pos hq] at hid
              simp only at hid
              have hwmem : w ∈ g.entries := List.mem_of_find?_eq_some hf
              have hwwait : w.status = .waiting := by
                have := List.find?_some hf
                simpa using this
              have hwid : w.id = xid := hq ▸ hid
              have := h1 w hwmem hwid
              rw [hwwait] at this
              exact absurd this (by decide)
            · rw [if_neg hq] at hid ⊢
              exact h1 e0 he0 hid
      · simp only [gatewayStep]
        cases hf : g.entries.find? (fun e => e.status = .waiting) <;>
          simpa [hf] using h2
  | recallCall q => exact ⟨h1, h2⟩

theorem gatewayRun_preserves (xid : Nat) :
    ∀ (cs : List GCall) (g : GState),
      (∀ e ∈ g.entries, e.id = xid → e.status = .completed) →
      xid < g.nextId →
      ∀ e ∈ (gatewayRun g cs).entries, e.id = xid → e.status = .completed := by
  intro cs
  induction cs with
  | nil => intro g h1 _; exact h1
  | cons c rest ih =>
      intro g h1 h2
      have h := gatewayStep_preserves xid g c h1 h2
      exact ih (gatewayStep g c) h.1 h.2

/-- C8: skipping a waiting entry X with (non-empty) name n issues exactly one
complete request for X's identifier followed by exactly one add-person
request with customer name n; the Gateway assigns the re-added entry a fresh
identifier, so across the skip traffic and any subsequent Gateway traffic,
X's original identifier never reappears with status waiting or serving — it
stays completed. The Gateway side is modelled from the spec. -/
theorem c8_skip_semantics (queue : List CtrlItem) (X : CtrlItem)
    (g : GState) (future : List GCall)
    (hfind : queue.find? (fun q => q.id = X.id) = some X)
    (_hstatus : X.status = .waiting)
    (hname : X.name ≠ "")
    (hfresh : parseId X.id < g.nextId) :
    handleSkipCalls queue X.id =
      [.completeCall (parseId X.id), .addPersonCall X.name false] ∧
    ∀ e ∈ (gatewayRun (gatewayRun g (handleSkipCalls queue X.id))
        future).entries,
      e.id = parseId X.id → e.status = .completed := by
  have hcalls : handleSkipCalls queue X.id =
      [.completeCall (parseId X.id), .addPersonCall X.name false] := by
    unfold handleSkipCalls handleCompleteCalls
    rw [hfind]
    simp [hname]
  refine ⟨hcalls, ?_⟩
  rw [hcalls]
  have hrun : gatewayRun g
      [.completeCall (parseId X.id), .addPersonCall X.name false] =
      gatewayStep (gatewayStep g (.completeCall (parseId X.id)))
        (.addPersonCall X.name false) := rfl
  rw [hrun]
  have hbase1 := complete_establishes (parseId X.id) g
  have hnext1 : parseId X.id <
      (gatewayStep g (.completeCall (parseId X.id))).nextId := hfresh
  have hstep2 := gatewayStep_preserves (parseId X.id) _
    (.addPersonCall X.name false) hbase1 hnext1
  exact gatewayRun_preserves (parseId X.id) future _ hstep2.1 hstep2.2

theorem c8_witness :
    handleSkipCalls [⟨"5", "P5", "Ben", Status.waiting, 7⟩] "5" =
      [.completeCall 5, .addPersonCall "Ben" false] ∧
    ∀ e ∈ (gatewayRun (gatewayRun ⟨[⟨5, "Ben", Status.waiting⟩], 6⟩
        (handleSkipCalls [⟨"5", "P5", "Ben", Status.waiting, 7⟩] "5"))
        [.callNextCall 1, .addPersonCall "Zoe" false]).entries,
      e.id = 5 → e.status = .completed := by
  have h := c8_skip_semantics [⟨"5", "P5", "Ben", Status.waiting, 7⟩]
    ⟨"5", "P5", "Ben", Status.waiting, 7⟩ ⟨[⟨5, "Ben", Status.waiting⟩], 6⟩
    [.callNextCall 1, .addPersonCall "Zoe" false]
    (by decide) rfl (by decide) (by decide)
  exact ⟨h.1, h.2⟩

theorem alookup_append_left {κ β : Type} [DecidableEq κ] (l l2 : List (κ × β))
    (k : κ) (x : β) (h : alookup l k = some x) :
    alookup (l ++ l2) k = some x := by
  induction l with
  | nil => simp [alookup] at h
  | cons p rest ih =>
      obtain ⟨a, b⟩ := p
      rw [alookup_cons] at h
      rw [List.cons_append, alookup_cons]
      by_cases hak : a = k
      · rwa [if_pos hak] at h ⊢
      · rw [if_neg hak] at h ⊢
        exact ih h

theorem alookup_append_pair {κ β : Type} [DecidableEq κ] (l : List (κ × β))
    (k q : κ) (v : β) :
    alookup (l ++ [(k, v)]) q =
      (alookup l q).or (if k = q then some v else none) := by
  induction l with
  | nil => simp [alookup]
  | cons p rest ih =>
      obtain ⟨a, b⟩ := p
      rw [List.cons_append, alookup_cons, alookup_cons]
      by_cases haq : a = q
      · rw [if_pos haq, if_pos haq]
        rfl
      · rw [if_neg haq, if_neg haq]
        exact ih

theorem alookup_append_single {κ β : Type} [DecidableEq κ] (l : List (κ × β))
    (k : κ) (v : β) :
    alookup (l ++ [(k, v)]) k = some ((alookup l k).getD v) := by
  cases h : alookup l k with
  | some x =>
      rw [alookup_append_left l [(k, v)] k x h]
      rfl
  | none =>
      rw [alookup_append_right l k v h]
      rfl

theorem alookup_none_not_mem {κ β : Type} [DecidableEq κ] (l : List (κ × β))
    (k : κ) (h : alookup l k = none) : k ∉ l.map Prod.fst := by
  induction l with
  | nil => simp
  | cons p rest ih =>
      obtain ⟨a, b⟩ := p
      rw [alookup_cons] at h
      by_cases hak : a = k
      · rw [if_pos hak] at h
        exact absurd h (by simp)
      · rw [if_neg hak] at h
        simp only [List.map_cons, List.mem_cons]
        rintro (rfl | hmem)
        · exact hak rfl
        · exact ih h hmem

theorem alookup_mapUpdate {β : Type} (l : List (Nat × β)) (cid : Nat)
    (g : β → β) :
    alookup (l.map (fun q => if q.1 = cid then (q.1, g q.2) else q)) cid =
      (alookup l cid).map g := by
  induction l with
  | nil => rfl
  | cons q rest ih =>
      obtain ⟨a, b⟩ := q
      by_cases h : a = cid
      · subst h
        simp [alookup_cons]
      · simp [alookup_cons, h, ih]

theorem alookup_mapUpdate_ne {β : Type} (l : List (Nat × β)) (cid q : Nat)
    (g : β → β) (h : q ≠ cid) :
    alookup (l.map (fun p => if p.1 = cid then (p.1, g p.2) else p)) q =
      alookup l q := by
  induction l with
  | nil => rfl
  | cons p rest ih =>
      obtain ⟨a, b⟩ := p
      by_cases hac : a = cid
      · subst hac
        have haq : a ≠ q := fun hh => h hh.symm
        simp [alookup_cons, haq, ih]
      · by_cases haq : a = q
        · subst haq
          simp [alookup_cons, hac]
        · simp [alookup_cons, hac, haq, ih]

theorem filter_key_le_one {β : Type} (l : List (String × β))
    (h : (l.map Prod.fst).Nodup) (n : String) :
    (l.filter (fun q => q.1 = n)).length ≤ 1 := by
  induction l with
  | nil => simp
  | cons p rest ih =>
      obtain ⟨a, b⟩ := p
      simp only [List.map_cons, List.nodup_cons] at h
      obtain ⟨hna, hnd⟩ := h
      by_cases han : a = n
      · subst han
        have hnil : rest.filter (fun q => q.1 = a) = [] := by
          rw [List.filter_eq_nil_iff]
          intro q hq
          simp only [decide_eq_true_eq]
          intro hqa
          exact hna (hqa ▸ List.mem_map_of_mem Prod.fst hq)
        simp [List.filter_cons, hnil]
      · simp only [List.filter_cons, decide_eq_true_eq]
        rw [if_neg han]
        exact ih hnd

theorem chanBind_byName (p : PusherState) (cid : Nat) (ev : String)
    (cb : Cb) : (chanBind p cid ev cb).byName = p.byName := rfl

theorem chanBind_objs_self (p : PusherState) (cid : Nat) (ev : String)
    (cb : Cb) :
    alookup (chanBind p cid ev cb).objs cid =
      (alookup p.objs cid).map (fun ch => ⟨ch.bindings ++ [(ev, cb)]⟩) :=
  alookup_mapUpdate p.objs cid (fun ch => ⟨ch.bindings ++ [(ev, cb)]⟩)

theorem chanBind_objs_ne (p : PusherState) (cid q : Nat) (ev : String)
    (cb : Cb) (h : q ≠ cid) :
    alookup (chanBind p cid ev cb).objs q = alookup p.objs q :=
  alookup_mapUpdate_ne p.objs cid q (fun ch => ⟨ch.bindings ++ [(ev, cb)]⟩) h

theorem chanBind_objs_isSome (p : PusherState) (cid : Nat) (ev : String)
    (cb : Cb) (q : Nat) (h : (alookup p.objs q).isSome = true) :
    (alookup (chanBind p cid ev cb).objs q).isSome = true := by
  by_cases hq : q = cid
  · subst hq
    rw [chanBind_objs_self]
    simpa using h
  · rw [chanBind_objs_ne p cid q ev cb hq]
    exact h

theorem chanBind_objs_extend (p : PusherState) (cid : Nat) (ev : String)
    (cb : Cb) (q : Nat) (ch : Channel) (h : alookup p.objs q = some ch) :
    ∃ ext, alookup (chanBind p cid ev cb).objs q =
      some ⟨ch.bindings ++ ext⟩ := by
  by_cases hq : q = cid
  · subst hq
    refine ⟨[(ev, cb)], ?_⟩
    rw [chanBind_objs_self, h]
    rfl
  · refine ⟨[], ?_⟩
    rw [chanBind_objs_ne p cid q ev cb hq, h]
    cases ch
    simp

theorem subscribeGen_step (key : String) (s : WSState) (c e : String)
    (k : Nat)
    (hnodup : (((s.pusher.getD freshPusher).byName).map Prod.fst).Nodup)
    (hobj : ∀ n cid, alookup (s.pusher.getD freshPusher).byName n = some cid →
      (alookup (s.pusher.getD freshPusher).objs cid).isSome = true)
    (halign : ∀ cid, alookup s.channels key = some cid →
      alookup (s.pusher.getD freshPusher).byName c = some cid) :
    ∃ cid ch,
      (subscribeGen key s c e k).1 = ⟨cid, e, Cb.user k⟩ ∧
      alookup ((subscribeGen key s c e k).2.pusher.getD freshPusher).byName c
        = some cid ∧
      alookup ((subscribeGen key s c e k).2.pusher.getD freshPusher).objs cid
        = some ⟨ch ++ [(e, Cb.user k)]⟩ ∧
      ((((subscribeGen key s c e k).2.pusher.getD freshPusher).byName).map
        Prod.fst).Nodup ∧
      (∀ n cid', alookup
          ((subscribeGen key s c e k).2.pusher.getD freshPusher).byName n
          = some cid' →
        (alookup ((subscribeGen key s c e k).2.pusher.getD freshPusher).objs
          cid').isSome = true) ∧
      (∀ n x, alookup (s.pusher.getD freshPusher).byName n = some x →
        alookup ((subscribeGen key s c e k).2.pusher.getD freshPusher).byName
          n = some x) ∧
      (∀ q ch', alookup (s.pusher.getD freshPusher).objs q = some ch' →
        ∃ ext, alookup
          ((subscribeGen key s c e k).2.pusher.getD freshPusher).objs q
          = some ⟨ch'.bindings ++ ext⟩) ∧
      (∀ key' cid', alookup (subscribeGen key s c e k).2.channels key'
          = some cid' →
        alookup s.channels key' = some cid' ∨ (key' = key ∧ cid' = cid)) := by
  cases hkey : alookup s.channels key with
  | some cid =>
      have hby : alookup (s.pusher.getD freshPusher).byName c = some cid :=
        halign cid hkey
      have hos : (alookup (s.pusher.getD freshPusher).objs cid).isSome
          = true := hobj c cid hby
      obtain ⟨ch0, hch0⟩ := Option.isSome_iff_exists.mp hos
      have hred : subscribeGen key s c e k =
          (⟨cid, e, Cb.user k⟩,
           { pusher := some (chanBind (s.pusher.getD freshPusher) cid e
               (Cb.user k))
             channels := s.channels }) := by
        simp [subscribeGen, hkey]
      rw [hred]
      refine ⟨cid, ch0.bindings, rfl, ?_, ?_, ?_, ?_, ?_, ?_, ?_⟩
      · simpa [chanBind_byName] using hby
      · show alookup (chanBind (s.pusher.getD freshPusher) cid e
          (Cb.user k)).objs cid = _
        rw [chanBind_objs_self, hch0]
        rfl
      · simpa [chanBind_byName] using hnodup
      · intro n cid' hn
        rw [Option.getD_some] at hn ⊢
        rw [chanBind_byName] at hn
        exact chanBind_objs_isSome _ cid e (Cb.user k) cid' (hobj n cid' hn)
      · intro n x hx
        simpa [chanBind_byName] using hx
      · intro q ch' hq
        rw [Option.getD_some]
        exact chanBind_objs_extend _ cid e (Cb.user k) q ch' hq
      · intro key' cid' h
        exact Or.inl h
  | none =>
      cases hbyc : alookup (s.pusher.getD freshPusher).byName c with
      | some cid =>
          have hps : pusherSubscribe (s.pusher.getD freshPusher) c =
              (cid, s.pusher.getD freshPusher) := by
            simp [pusherSubscribe, hbyc]
          have hos : (alookup (s.pusher.getD freshPusher).objs cid).isSome
              = true := hobj c cid hbyc
          obtain ⟨ch0, hch0⟩ := Option.isSome_iff_exists.mp hos
          have hred : subscribeGen key s c e k =
              (⟨cid, e, Cb.user k⟩,
               { pusher := some (chanBind (chanBind (chanBind
                   (s.pusher.getD freshPusher) cid
                   "pusher:subscription_succeeded" Cb.logSub) cid
                   "pusher:subscription_error" Cb.logErr) cid e (Cb.user k))
                 channels := s.channels ++ [(key, cid)] }) := by
            simp [subscribeGen, hkey, hps]
          rw [hred]
          refine ⟨cid,
            (ch0.bindings ++ [("pusher:subscription_succeeded", Cb.logSub)])
              ++ [("pusher:subscription_error", Cb.logErr)],
            rfl, ?_, ?_, ?_, ?_, ?_, ?_, ?_⟩
          · simpa [chanBind_byName] using hbyc
          · show alookup (chanBind (chanBind (chanBind _ cid _ _) cid _ _)
              cid e (Cb.user k)).objs cid = _
            rw [chanBind_objs_self, chanBind_objs_self, chanBind_objs_self,
              hch0]
            rfl
          · simpa [chanBind_byName] using hnodup
          · intro n cid' hn
            rw [Option.getD_some] at hn ⊢
            rw [chanBind_byName, chanBind_byName, chanBind_byName] at hn
            exact chanBind_objs_isSome _ cid e (Cb.user k) cid'
              (chanBind_objs_isSome _ cid _ Cb.logErr cid'
                (chanBind_objs_isSome _ cid _ Cb.logSub cid'
                  (hobj n cid' hn)))
          · intro n x hx
            simpa [chanBind_byName] using hx
          · intro q ch' hq
            rw [Option.getD_some]
            obtain ⟨x1, h1⟩ := chanBind_objs_extend _ cid
              "pusher:subscription_succeeded" Cb.logSub q ch' hq
            obtain ⟨x2, h2⟩ := chanBind_objs_extend _ cid
              "pusher:subscription_error" Cb.logErr q _ h1
            obtain ⟨x3, h3⟩ := chanBind_objs_extend _ cid e (Cb.user k) q _ h2
            refine ⟨x1 ++ x2 ++ x3, ?_⟩
            simpa [List.append_assoc] using h3
          · intro key' cid' h
            rw [alookup_append_pair] at h
            cases hl : alookup s.channels key' with
            | some x =>
                rw [hl] at h
                have hx : x = cid' := by simpa [Option.or] using h
                exact Or.inl (by rw [hx])
            | none =>
                rw [hl] at h
                by_cases hk : key = key'
                · rw [if_pos hk] at h
                  have hcc : cid = cid' := by simpa [Option.or] using h
                  exact Or.inr ⟨hk.symm, hcc.symm⟩
                · rw [if_neg hk] at h
                  simp [Option.or] at h
      | none =>
          have hps : pusherSubscribe (s.pusher.getD freshPusher) c =
              ((s.pusher.getD freshPusher).nextId,
               { nextId := (s.pusher.getD freshPusher).nextId + 1
                 byName := (s.pusher.getD freshPusher).byName ++
                   [(c, (s.pusher.getD freshPusher).nextId)]
                 objs := (s.pusher.getD freshPusher).objs ++
                   [((s.pusher.getD freshPusher).nextId, ⟨[]⟩)] }) := by
            simp [pusherSubscribe, hbyc]
          set p0 := s.pusher.getD freshPusher with hp0
          set nid := p0.nextId with hnid
          set pnew : PusherState :=
            { nextId := nid + 1
              byName := p0.byName ++ [(c, nid)]
              objs := p0.objs ++ [(nid, ⟨[]⟩)] } with hpnew
          have hred : subscribeGen key s c e k =
              (⟨nid, e, Cb.user k⟩,
               { pusher := some (chanBind (chanBind (chanBind pnew nid
                   "pusher:subscription_succeeded" Cb.logSub) nid
                   "pusher:subscription_error" Cb.logErr) nid e (Cb.user k))
                 channels := s.channels ++ [(key, nid)] }) := by
            simp [subscribeGen, hkey, hps]
          have hbynew : alookup pnew.byName c = some nid :=
            alookup_append_right p0.byName c nid hbyc
          have hosnew : alookup pnew.objs nid =
              some ((alookup p0.objs nid).getD ⟨[]⟩) :=
            alookup_append_single p0.objs nid ⟨[]⟩
          rw [hred]
          refine ⟨nid,
            (((alookup p0.objs nid).getD ⟨[]⟩).bindings ++
              [("pusher:subscription_succeeded", Cb.logSub)])
              ++ [("pusher:subscription_error", Cb.logErr)],
            rfl, ?_, ?_, ?_, ?_, ?_, ?_, ?_⟩
          · simpa [chanBind_byName] using hbynew
          · show alookup (chanBind (chanBind (chanBind pnew nid _ _) nid _ _)
              nid e (Cb.user k)).objs nid = _
            rw [chanBind_objs_self, chanBind_objs_self, chanBind_objs_self,
              hosnew]
            rfl
          · rw [Option.getD_some, chanBind_byName, chanBind_byName,
              chanBind_byName]
            show ((p0.byName ++ [(c, nid)]).map Prod.fst).Nodup
            rw [List.map_append]
            rw [List.nodup_append]
            refine ⟨hnodup, by simp, ?_⟩
            intro a ha hb
            simp only [List.map_cons, List.map_nil, List.mem_singleton] at hb
            subst hb
            exact alookup_none_not_mem p0.byName _ hbyc ha
          · intro n cid' hn
            rw [Option.getD_some] at hn ⊢
            rw [chanBind_byName, chanBind_byName, chanBind_byName] at hn
            have hn2 : alookup (p0.byName ++ [(c, nid)]) n = some cid' := hn
            rw [alookup_append_pair] at hn2
            have hsome : (alookup pnew.objs cid').isSome = true := by
              cases hl : alookup p0.byName n with
              | some x =>
                  rw [hl] at hn2
                  have hx : x = cid' := by simpa [Option.or] using hn2
                  subst hx
                  obtain ⟨chx, hchx⟩ := Option.isSome_iff_exists.mp
                    (hobj n x hl)
                  have hkeep := alookup_append_left p0.objs [(nid, ⟨[]⟩)]
                    x chx hchx
                  show (alookup (p0.objs ++ [(nid, ⟨[]⟩)]) x).isSome = true
                  rw [hkeep]
                  rfl
              | none =>
                  rw [hl] at hn2
                  by_cases hc2 : c = n
                  · rw [if_pos hc2] at hn2
                    have hnn : nid = cid' := by simpa [Option.or] using hn2
                    subst hnn
                    show (alookup (p0.objs ++ [(nid, ⟨[]⟩)]) nid).isSome
                      = true
                    rw [alookup_append_single]
                    rfl
                  · rw [if_neg hc2] at hn2
                    simp [Option.or] at hn2
            exact chanBind_objs_isSome _ nid e (Cb.user k) cid'
              (chanBind_objs_isSome _ nid _ Cb.logErr cid'
                (chanBind_objs_isSome _ nid _ Cb.logSub cid' hsome))
          · intro n x hx
            rw [Option.getD_some, chanBind_byName, chanBind_byName,
              chanBind_byName]
            exact alookup_append_left p0.byName [(c, nid)] n x hx
          · intro q ch' hq
            rw [Option.getD_some]
            have hq1 : alookup pnew.objs q = some ch' :=
              alookup_append_left p0.objs [(nid, ⟨[]⟩)] q ch' hq
            obtain ⟨x1, h1⟩ := chanBind_objs_extend pnew nid
              "pusher:subscription_succeeded" Cb.logSub q ch' hq1
            obtain ⟨x2, h2⟩ := chanBind_objs_extend _ nid
              "pusher:subscription_error" Cb.logErr q _ h1
            obtain ⟨x3, h3⟩ := chanBind_objs_extend _ nid e (Cb.user k) q _ h2
            refine ⟨x1 ++ x2 ++ x3, ?_⟩
            simpa [List.append_assoc] using h3
          · intro key' cid' h
            rw [alookup_append_pair] at h
            cases hl : alookup s.channels key' with
            | some x =>
                rw [hl] at h
                have hx : x = cid' := by simpa [Option.or] using h
                exact Or.inl (by rw [hx])
            | none =>
                rw [hl] at h
                by_cases hk : key = key'
                · rw [if_pos hk] at h
                  have hcc : nid = cid' := by simpa [Option.or] using h
                  exact Or.inr ⟨hk.symm, hcc.symm⟩
                · rw [if_neg hk] at h
                  simp [Option.or] at h

theorem bindingsAt_runUnsub_self (s : WSState) (u : Unsub) :
    bindingsAt (runUnsub s u) u.cid =
      (bindingsAt s u.cid).filter
        (fun b => ¬(b.1 = u.ev ∧ b.2 = u.cb)) := by
  cases hs : s.pusher with
  | none =>
      simp [runUnsub, hs, bindingsAt, freshPusher, alookup]
  | some p =>
      have hr : runUnsub s u =
          ⟨some (chanUnbind p u.cid u.ev u.cb), s.channels⟩ := by
        simp [runUnsub, hs]
      rw [hr]
      unfold bindingsAt
      simp only [hs, Option.getD_some]
      rw [show (chanUnbind p u.cid u.ev u.cb).objs =
        p.objs.map (fun q => if q.1 = u.cid then
          (q.1, ⟨q.2.bindings.filter
            (fun b => ¬(b.1 = u.ev ∧ b.2 = u.cb))⟩) else q) from rfl]
      rw [alookup_mapUpdate p.objs u.cid
        (fun ch => ⟨ch.bindings.filter
          (fun b => ¬(b.1 = u.ev ∧ b.2 = u.cb))⟩)]
      cases alookup p.objs u.cid with
      | none => rfl
      | some ch => rfl

theorem bindingsAt_runUnsub_ne (s : WSState) (u : Unsub) (q : Nat)
    (h : q ≠ u.cid) :
    bindingsAt (runUnsub s u) q = bindingsAt s q := by
  cases hs : s.pusher with
  | none => simp [runUnsub, hs]
  | some p =>
      have hr : runUnsub s u =
          ⟨some (chanUnbind p u.cid u.ev u.cb), s.channels⟩ := by
        simp [runUnsub, hs]
      rw [hr]
      unfold bindingsAt
      simp only [hs, Option.getD_some]
      rw [show (chanUnbind p u.cid u.ev u.cb).objs =
        p.objs.map (fun x => if x.1 = u.cid then
          (x.1, ⟨x.2.bindings.filter
            (fun b => ¬(b.1 = u.ev ∧ b.2 = u.cb))⟩) else x) from rfl]
      rw [alookup_mapUpdate_ne p.objs u.cid q
        (fun ch => ⟨ch.bindings.filter
          (fun b => ¬(b.1 = u.ev ∧ b.2 = u.cb))⟩) h]

theorem chanIdOf_runUnsub (s : WSState) (u : Unsub) (name : String) :
    chanIdOf (runUnsub s u) name = chanIdOf s name := by
  cases hs : s.pusher with
  | none => simp [runUnsub, hs]
  | some p =>
      have hr : runUnsub s u =
          ⟨some (chanUnbind p u.cid u.ev u.cb), s.channels⟩ := by
        simp [runUnsub, hs]
      rw [hr]
      unfold chanIdOf
      simp only [hs, Option.getD_some]
      rfl

/-- Two consecutive subscribes with the same channel name through the shared
subscribe body, from a well-formed aligned state: both bind to the same
channel object, both bindings are present afterwards on that object, pusher
registers that object for the channel name, and pusher holds at most one
channel object per name. -/
theorem subscribeGen_pair (key1 key2 : String) (s : WSState)
    (c e1 e2 : String) (k1 k2 : Nat)
    (hnodup : (((s.pusher.getD freshPusher).byName).map Prod.fst).Nodup)
    (hobj : ∀ n cid, alookup (s.pusher.getD freshPusher).byName n = some cid →
      (alookup (s.pusher.getD freshPusher).objs cid).isSome = true)
    (halign1 : ∀ cid, alookup s.channels key1 = some cid →
      alookup (s.pusher.getD freshPusher).byName c = some cid)
    (halign2 : ∀ cid, alookup s.channels key2 = some cid →
      alookup (s.pusher.getD freshPusher).byName c = some cid) :
    ∃ cid bnd,
      (subscribeGen key1 s c e1 k1).1 = ⟨cid, e1, Cb.user k1⟩ ∧
      (subscribeGen key2 (subscribeGen key1 s c e1 k1).2 c e2 k2).1 =
        ⟨cid, e2, Cb.user k2⟩ ∧
      bindingsAt (subscribeGen key2 (subscribeGen key1 s c e1 k1).2 c e2
        k2).2 cid = bnd ∧
      (e1, Cb.user k1) ∈ bnd ∧ (e2, Cb.user k2) ∈ bnd ∧
      chanIdOf (subscribeGen key2 (subscribeGen key1 s c e1 k1).2 c e2
        k2).2 c = some cid ∧
      (∀ n, chanCount (subscribeGen key2 (subscribeGen key1 s c e1 k1).2 c
        e2 k2).2 n ≤ 1) := by
  obtain ⟨cid1, ch1, hr1, hby1, hobjs1, hnodup1, hobj1, hmono1, hext1,
    hchan1⟩ := subscribeGen_step key1 s c e1 k1 hnodup hobj halign1
  have halign2' : ∀ cid,
      alookup (subscribeGen key1 s c e1 k1).2.channels key2 = some cid →
      alookup ((subscribeGen key1 s c e1 k1).2.pusher.getD
        freshPusher).byName c = some cid := by
    intro cid hc
    rcases hchan1 key2 cid hc with h | ⟨_, hc2⟩
    · exact hmono1 c cid (halign2 cid h)
    · rw [hc2]
      exact hby1
  obtain ⟨cid2, ch2, hr2, hby2, hobjs2, hnodup2, hobj2, hmono2, hext2,
    _hchan2⟩ := subscribeGen_step key2 (subscribeGen key1 s c e1 k1).2 c e2
      k2 hnodup1 hobj1 halign2'
  have hcc : cid2 = cid1 := by
    have h := hmono2 c cid1 hby1
    rw [hby2] at h
    exact (Option.some.injEq _ _).mp h.symm |>.symm
  subst hcc
  obtain ⟨ext, hext⟩ := hext2 cid2 ⟨ch1 ++ [(e1, Cb.user k1)]⟩ hobjs1
  have heq : ch2 ++ [(e2, Cb.user k2)] =
      (ch1 ++ [(e1, Cb.user k1)]) ++ ext := by
    rw [hobjs2] at hext
    have := (Option.some.injEq _ _).mp hext
    have := congrArg Channel.bindings this
    simpa using this
  refine ⟨cid2, ch2 ++ [(e2, Cb.user k2)], hr1, hr2, ?_, ?_, ?_, ?_, ?_⟩
  · unfold bindingsAt
    rw [hobjs2]
  · rw [heq]
    simp
  · simp
  · unfold chanIdOf
    exact hby2
  · intro n
    unfold chanCount
    exact filter_key_le_one _ hnodup2 n

/-- C1 counterexample: from a fresh service, the first subscribe-variant
(map keyed by `channelName + "-" + eventName`) lets the keys alias:
subscribe("a", "b-c") stores key "a-b-c"; subscribe("a-b", "c") then hits
that key and binds its callback to channel "a" — leaving no channel object
for "a-b" at all — and the next subscribe("a-b", "x") creates a fresh
channel object instead of reusing the object the previous same-channel-name
subscribe was bound to. -/
theorem c1_counterexample :
    (let s0 : WSState := ⟨none, []⟩
     let r1 := subscribe1 s0 "a" "b-c" 0
     let r2 := subscribe1 r1.2 "a-b" "c" 1
     let r3 := subscribe1 r2.2 "a-b" "x" 2
     r2.1.cid ≠ r3.1.cid ∧
     chanIdOf r2.2 "a-b" = none ∧
     chanIdOf r2.2 "a" = some r2.1.cid ∧
     ("c", Cb.user 1) ∈ bindingsAt r2.2 r2.1.cid) := by
  decide

/-- C1 amended: the sharing property as claimed holds for the second
subscribe variant unconditionally, and for the first variant on every
well-formed aligned state (no key aliasing): two subscribes with the same
channel name bind to one and the same channel object, neither binding
clobbers the other, pusher registers that object for the name, and at most
one channel object exists per channel name. -/
theorem c1_channel_sharing (s : WSState) (c e1 e2 : String) (k1 k2 : Nat)
    (hinv : WSInv s) :
    (∃ cid bnd,
      (subscribe2 s c e1 k1).1 = ⟨cid, e1, Cb.user k1⟩ ∧
      (subscribe2 (subscribe2 s c e1 k1).2 c e2 k2).1 =
        ⟨cid, e2, Cb.user k2⟩ ∧
      bindingsAt (subscribe2 (subscribe2 s c e1 k1).2 c e2 k2).2 cid = bnd ∧
      (e1, Cb.user k1) ∈ bnd ∧ (e2, Cb.user k2) ∈ bnd ∧
      chanIdOf (subscribe2 (subscribe2 s c e1 k1).2 c e2 k2).2 c =
        some cid ∧
      (∀ n, chanCount (subscribe2 (subscribe2 s c e1 k1).2 c e2 k2).2 n
        ≤ 1)) ∧
    (∃ cid bnd,
      (subscribe1 s c e1 k1).1 = ⟨cid, e1, Cb.user k1⟩ ∧
      (subscribe1 (subscribe1 s c e1 k1).2 c e2 k2).1 =
        ⟨cid, e2, Cb.user k2⟩ ∧
      bindingsAt (subscribe1 (subscribe1 s c e1 k1).2 c e2 k2).2 cid = bnd ∧
      (e1, Cb.user k1) ∈ bnd ∧ (e2, Cb.user k2) ∈ bnd ∧
      chanIdOf (subscribe1 (subscribe1 s c e1 k1).2 c e2 k2).2 c =
        some cid ∧
      (∀ n, chanCount (subscribe1 (subscribe1 s c e1 k1).2 c e2 k2).2 n
        ≤ 1)) := by
  constructor
  · exact subscribeGen_pair c c s c e1 e2 k1 k2 hinv.nodupNames
      hinv.objExists (fun cid h => hinv.mapAligned2 c cid h)
      (fun cid h => hinv.mapAligned2 c cid h)
  · exact subscribeGen_pair (c ++ "-" ++ e1) (c ++ "-" ++ e2) s c e1 e2
      k1 k2 hinv.nodupNames hinv.objExists
      (fun cid h => hinv.mapAligned1 (c ++ "-" ++ e1) cid h c e1 rfl)
      (fun cid h => hinv.mapAligned1 (c ++ "-" ++ e2) cid h c e2 rfl)

theorem c1_witness :
    ∃ cid bnd,
      (subscribe2 ⟨none, []⟩ "service-counters" "QueueUpdated" 0).1 =
        ⟨cid, "QueueUpdated", Cb.user 0⟩ ∧
      (subscribe2 (subscribe2 ⟨none, []⟩ "service-counters" "QueueUpdated"
        0).2 "service-counters" "QueueListUpdated" 1).1 =
        ⟨cid, "QueueListUpdated", Cb.user 1⟩ ∧
      bindingsAt (subscribe2 (subscribe2 ⟨none, []⟩ "service-counters"
        "QueueUpdated" 0).2 "service-counters" "QueueListUpdated" 1).2 cid
        = bnd ∧
      ("QueueUpdated", Cb.user 0) ∈ bnd ∧
      ("QueueListUpdated", Cb.user 1) ∈ bnd := by
  obtain ⟨⟨cid, bnd, h1, h2, h3, h4, h5, _, _⟩, _⟩ :=
    c1_channel_sharing ⟨none, []⟩ "service-counters" "QueueUpdated"
      "QueueListUpdated" 0 1
      ⟨by simp [freshPusher],
       by intro n cid h; simp [freshPusher, alookup] at h,
       by intro key cid h; simp [alookup] at h,
       by intro n cid h; simp [alookup] at h⟩
  exact ⟨cid, bnd, h1, h2, h3, h4, h5⟩

/-- Unsubscribing one of two same-channel subscribers through the shared
subscribe body removes exactly that event/callback pair from the shared
channel object, leaves the other binding present and firing, leaves every
other channel object untouched, and does not tear the channel down. -/
theorem subscribeGen_unsub (key1 key2 : String) (s : WSState)
    (c e1 e2 : String) (k1 k2 : Nat)
    (hnodup : (((s.pusher.getD freshPusher).byName).map Prod.fst).Nodup)
    (hobj : ∀ n cid, alookup (s.pusher.getD freshPusher).byName n = some cid →
      (alookup (s.pusher.getD freshPusher).objs cid).isSome = true)
    (halign1 : ∀ cid, alookup s.channels key1 = some cid →
      alookup (s.pusher.getD freshPusher).byName c = some cid)
    (halign2 : ∀ cid, alookup s.channels key2 = some cid →
      alookup (s.pusher.getD freshPusher).byName c = some cid)
    (hne : e1 ≠ e2 ∨ k1 ≠ k2) :
    ∃ cid,
      (subscribeGen key1 s c e1 k1).1 = ⟨cid, e1, Cb.user k1⟩ ∧
      bindingsAt (runUnsub (subscribeGen key2 (subscribeGen key1 s c e1
          k1).2 c e2 k2).2 (subscribeGen key1 s c e1 k1).1) cid =
        (bindingsAt (subscribeGen key2 (subscribeGen key1 s c e1 k1).2 c e2
          k2).2 cid).filter
          (fun b => ¬(b.1 = e1 ∧ b.2 = Cb.user k1)) ∧
      (e2, Cb.user k2) ∈ bindingsAt (runUnsub (subscribeGen key2
        (subscribeGen key1 s c e1 k1).2 c e2 k2).2
        (subscribeGen key1 s c e1 k1).1) cid ∧
      Cb.user k2 ∈ fireCallbacks (runUnsub (subscribeGen key2 (subscribeGen
        key1 s c e1 k1).2 c e2 k2).2 (subscribeGen key1 s c e1 k1).1) c e2 ∧
      chanIdOf (runUnsub (subscribeGen key2 (subscribeGen key1 s c e1 k1).2
        c e2 k2).2 (subscribeGen key1 s c e1 k1).1) c = some cid ∧
      ∀ q, q ≠ cid →
        bindingsAt (runUnsub (subscribeGen key2 (subscribeGen key1 s c e1
          k1).2 c e2 k2).2 (subscribeGen key1 s c e1 k1).1) q =
        bindingsAt (subscribeGen key2 (subscribeGen key1 s c e1 k1).2 c e2
          k2).2 q := by
  obtain ⟨cid, bnd, hr1, _hr2, hb, m1, m2, hcid, _⟩ :=
    subscribeGen_pair key1 key2 s c e1 e2 k1 k2 hnodup hobj halign1 halign2
  rw [hr1]
  have hfilt := bindingsAt_runUnsub_self
    (subscribeGen key2 (subscribeGen key1 s c e1 k1).2 c e2 k2).2
    ⟨cid, e1, Cb.user k1⟩
  have hmem2 : (e2, Cb.user k2) ∈ bindingsAt (runUnsub (subscribeGen key2
      (subscribeGen key1 s c e1 k1).2 c e2 k2).2 ⟨cid, e1, Cb.user k1⟩)
      cid := by
    rw [hfilt, hb]
    refine List.mem_filter.mpr ⟨m2, ?_⟩
    simp only [decide_eq_true_eq]
    intro hcontra
    rcases hne with h | h
    · exact h hcontra.1.symm
    · have hk : Cb.user k2 = Cb.user k1 := hcontra.2
      injection hk with hk
      exact h hk.symm
  have hcid3 : chanIdOf (runUnsub (subscribeGen key2 (subscribeGen key1 s c
      e1 k1).2 c e2 k2).2 ⟨cid, e1, Cb.user k1⟩) c = some cid := by
    rw [chanIdOf_runUnsub]
    exact hcid
  refine ⟨cid, rfl, hfilt, hmem2, ?_, hcid3, ?_⟩
  · unfold fireCallbacks
    rw [hcid3]
    refine List.mem_map.mpr ⟨(e2, Cb.user k2), ?_, rfl⟩
    exact List.mem_filter.mpr ⟨hmem2, by simp⟩
  · intro q hq
    exact bindingsAt_runUnsub_ne _ ⟨cid, e1, Cb.user k1⟩ q hq

/-- C2: with two callbacks bound to the same channel name under different
event names (or different callbacks), running the unsubscribe closure of the
first unbinds only that event/callback pair: the other binding stays bound
and still fires on its event, other channel objects are untouched, and the
channel object stays registered for the channel name (never torn down).
Proven for both subscribe variants. -/
theorem c2_unsubscribe_frame (s : WSState) (c e1 e2 : String) (k1 k2 : Nat)
    (hinv : WSInv s) (hne : e1 ≠ e2 ∨ k1 ≠ k2) :
    (∃ cid,
      (subscribe2 s c e1 k1).1 = ⟨cid, e1, Cb.user k1⟩ ∧
      bindingsAt (runUnsub (subscribe2 (subscribe2 s c e1 k1).2 c e2 k2).2
          (subscribe2 s c e1 k1).1) cid =
        (bindingsAt (subscribe2 (subscribe2 s c e1 k1).2 c e2 k2).2
          cid).filter (fun b => ¬(b.1 = e1 ∧ b.2 = Cb.user k1)) ∧
      (e2, Cb.user k2) ∈ bindingsAt (runUnsub (subscribe2 (subscribe2 s c
        e1 k1).2 c e2 k2).2 (subscribe2 s c e1 k1).1) cid ∧
      Cb.user k2 ∈ fireCallbacks (runUnsub (subscribe2 (subscribe2 s c e1
        k1).2 c e2 k2).2 (subscribe2 s c e1 k1).1) c e2 ∧
      chanIdOf (runUnsub (subscribe2 (subscribe2 s c e1 k1).2 c e2 k2).2
        (subscribe2 s c e1 k1).1) c = some cid ∧
      ∀ q, q ≠ cid →
        bindingsAt (runUnsub (subscribe2 (subscribe2 s c e1 k1).2 c e2
          k2).2 (subscribe2 s c e1 k1).1) q =
        bindingsAt (subscribe2 (subscribe2 s c e1 k1).2 c e2 k2).2 q) ∧
    (∃ cid,
      (subscribe1 s c e1 k1).1 = ⟨cid, e1, Cb.user k1⟩ ∧
      bindingsAt (runUnsub (subscribe1 (subscribe1 s c e1 k1).2 c e2 k2).2
          (subscribe1 s c e1 k1).1) cid =
        (bindingsAt (subscribe1 (subscribe1 s c e1 k1).2 c e2 k2).2
          cid).filter (fun b => ¬(b.1 = e1 ∧ b.2 = Cb.user k1)) ∧
      (e2, Cb.user k2) ∈ bindingsAt (runUnsub (subscribe1 (subscribe1 s c
        e1 k1).2 c e2 k2).2 (subscribe1 s c e1 k1).1) cid ∧
      Cb.user k2 ∈ fireCallbacks (runUnsub (subscribe1 (subscribe1 s c e1
        k1).2 c e2 k2).2 (subscribe1 s c e1 k1).1) c e2 ∧
      chanIdOf (runUnsub (subscribe1 (subscribe1 s c e1 k1).2 c e2 k2).2
        (subscribe1 s c e1 k1).1) c = some cid ∧
      ∀ q, q ≠ cid →
        bindingsAt (runUnsub (subscribe1 (subscribe1 s c e1 k1).2 c e2
          k2).2 (subscribe1 s c e1 k1).1) q =
        bindingsAt (subscribe1 (subscribe1 s c e1 k1).2 c e2 k2).2 q) := by
  constructor
  · exact subscribeGen_unsub c c s c e1 e2 k1 k2 hinv.nodupNames
      hinv.objExists (fun cid h => hinv.mapAligned2 c cid h)
      (fun cid h => hinv.mapAligned2 c cid h) hne
  · exact subscribeGen_unsub (c ++ "-" ++ e1) (c ++ "-" ++ e2) s c e1 e2
      k1 k2 hinv.nodupNames hinv.objExists
      (fun cid h => hinv.mapAligned1 (c ++ "-" ++ e1) cid h c e1 rfl)
      (fun cid h => hinv.mapAligned1 (c ++ "-" ++ e2) cid h c e2 rfl) hne

theorem c2_witness :
    ∃ cid,
      (subscribe2 ⟨none, []⟩ "service-counters" "QueueUpdated" 0).1 =
        ⟨cid, "QueueUpdated", Cb.user 0⟩ ∧
      ("QueueListUpdated", Cb.user 1) ∈ bindingsAt
        (runUnsub (subscribe2 (subscribe2 ⟨none, []⟩ "service-counters"
          "QueueUpdated" 0).2 "service-counters" "QueueListUpdated" 1).2
          (subscribe2 ⟨none, []⟩ "service-counters" "QueueUpdated" 0).1)
        cid ∧
      Cb.user 1 ∈ fireCallbacks (runUnsub (subscribe2 (subscribe2
        ⟨none, []⟩ "service-counters" "QueueUpdated" 0).2 "service-counters"
        "QueueListUpdated" 1).2 (subscribe2 ⟨none, []⟩ "service-counters"
        "QueueUpdated" 0).1) "service-counters" "QueueListUpdated" := by
  obtain ⟨⟨cid, h1, _, h3, h4, _, _⟩, _⟩ :=
    c2_unsubscribe_frame ⟨none, []⟩ "service-counters" "QueueUpdated"
      "QueueListUpdated" 0 1
      ⟨by simp [freshPusher],
       by intro n cid h; simp [freshPusher, alookup] at h,
       by intro key cid h; simp [alookup] at h,
       by intro n cid h; simp [alookup] at h⟩
      (Or.inl (by decide))
  exact ⟨cid, h1, h3, h4⟩

/-- A fold that fixes its accumulator on every element of the list leaves it
unchanged. -/
theorem foldl_const_of_mem {α β : Type} (f : β → α → β) (b : β) (l : List α)
    (h : ∀ a ∈ l, f b a = b) : l.foldl f b = b := by
  induction l with
  | nil => rfl
  | cons x xs ih =>
    rw [List.foldl_cons, h x (List.mem_cons_self x xs)]
    exact ih (fun a ha => h a (List.mem_cons_of_mem x ha))

/-- A nonempty tail as a Bool equals the the-list-has-two-elements test. -/
theorem two_le_length_cons {α : Type} (x : α) (xs : List α) :
    (!xs.isEmpty) = decide (2 ≤ (x :: xs).length) := by
  cases xs with
  | nil => rfl
  | cons a as => exact (decide_eq_true (by simp only [List.length_cons]; omega)).symm

/-- Counting the calls up to `t + 1` splits into the calls up to `t` plus the
calls at exactly `t + 1`. -/
theorem cnt_succ (l : List Nat) (t : Nat) :
    (l.filter (fun x => x ≤ t + 1)).length =
    (l.filter (fun x => x ≤ t)).length +
    (l.filter (fun x => x = t + 1)).length := by
  induction l with
  | nil => rfl
  | cons y ys ih =>
    simp only [List.filter_cons]
    by_cases h1 : y ≤ t
    · have h2 : y ≤ t + 1 := by omega
      have h3 : ¬(y = t + 1) := by omega
      simp [h1, h2, h3, ih]
      omega
    · by_cases h4 : y = t + 1
      · have h2 : y ≤ t + 1 := by omega
        simp [h1, h2, h4, ih]
        omega
      · have h2 : ¬(y ≤ t + 1) := by omega
        simp [h1, h2, h4, ih]

/-- The first ever call invokes on the leading edge and arms the timer. -/
theorem throttleCall_init (wait t : Nat) :
    throttleCall wait debInit t = throttleMid wait t t false := rfl

/-- A call strictly inside the open window neither invokes nor re-arms: it
only refreshes the last-call time and marks arguments pending. -/
theorem throttleCall_mid (wait t0 c t : Nat) (ap : Bool)
    (h1 : t - c < wait) (h2 : t - t0 < wait) :
    throttleCall wait (throttleMid wait t0 c ap) t =
    throttleMid wait t0 t true := by
  have hsi : shouldInvoke wait (throttleMid wait t0 c ap) t = false := by
    simp only [shouldInvoke, throttleMid, decide_eq_false_iff_not]
    omega
  simp only [throttleMid] at hsi
  simp [throttleCall, hsi, throttleMid]

/-- Folding any batch of same-tick calls at a time strictly inside the window
over the mid-window state: an empty batch changes nothing, a nonempty batch
refreshes the last-call time to the tick and marks arguments pending. -/
theorem callFold_mid (wait t0 t : Nat) (ht0 : t0 ≤ t) (ht : t < t0 + wait) :
    ∀ (l : List Nat) (c : Nat) (ap : Bool), t0 ≤ c → c ≤ t →
    l.foldl (fun s2 _ => throttleCall wait s2 t) (throttleMid wait t0 c ap) =
    if l = [] then throttleMid wait t0 c ap
    else throttleMid wait t0 t true := by
  intro l
  induction l with
  | nil => intro c ap _ _; rfl
  | cons x xs ih =>
    intro c ap hc hct
    simp only [List.foldl_cons]
    rw [throttleCall_mid wait t0 c t ap (by omega) (by omega)]
    rw [ih t true ht0 le_rfl]
    simp

/-- Ticks before the burst leave the initial state untouched: no timer is
armed and no call arrives. -/
theorem throttleStep_quiet (wait m t0 : Nat) (calls : List Nat)
    (hm : m < t0) (hwin : ∀ x ∈ calls, t0 ≤ x) :
    throttleStep wait calls debInit m = debInit := by
  have hfilt : calls.filter (fun c => c = m) = [] := by
    apply List.filter_eq_nil_iff.mpr
    intro a ha
    have := hwin a ha
    simp
    omega
  simp [throttleStep, debInit, hfilt]

/-- The tick that opens the burst: the first call invokes on the leading edge
and arms the timer; any same-tick extra calls only mark arguments pending. -/
theorem throttleStep_first (wait t0 : Nat) (calls : List Nat) (hw : 1 ≤ wait)
    (hmem : t0 ∈ calls) (hwin : ∀ x ∈ calls, t0 ≤ x) :
    throttleStep wait calls debInit t0 =
    throttleMid wait t0 t0
      (decide (2 ≤ (calls.filter (fun x => x ≤ t0)).length)) := by
  have hfeq : calls.filter (fun x => x ≤ t0) = calls.filter (fun c => c = t0) := by
    apply List.filter_congr
    intro a ha
    have := hwin a ha
    simp only [decide_eq_decide]
    omega
  have hm : t0 ∈ calls.filter (fun c => c = t0) :=
    List.mem_filter.mpr ⟨hmem, by simp⟩
  have hne0 : ¬(debInit.timerExpiry = some t0) := by simp [debInit]
  have hstep : throttleStep wait calls debInit t0 =
      (calls.filter (fun c => c = t0)).foldl
        (fun s2 _ => throttleCall wait s2 t0) debInit := by
    simp only [throttleStep]
    rw [if_neg hne0]
  cases hc : calls.filter (fun c => c = t0) with
  | nil =>
    rw [hc] at hm
    simp at hm
  | cons x xs =>
    rw [hstep, hc]
    simp only [List.foldl_cons, throttleCall_init]
    rw [callFold_mid wait t0 t0 le_rfl (by omega) xs t0 false le_rfl le_rfl]
    rw [hfeq, hc, ← two_le_length_cons x xs]
    cases xs <;> simp

/-- The tick at the window boundary: the armed timer fires; with arguments
pending this is the trailing-edge invocation, otherwise only the timer is
cleared. No call arrives at this tick. -/
theorem throttleStep_final (wait t0 c : Nat) (ap : Bool) (calls : List Nat)
    (hwin : ∀ x ∈ calls, x < t0 + wait) :
    throttleStep wait calls (throttleMid wait t0 c ap) (t0 + wait) =
    if ap then DebState.mk (some c) (t0 + wait) none false [t0, t0 + wait]
    else DebState.mk (some c) t0 none ap [t0] := by
  have hfilt : calls.filter (fun x => x = t0 + wait) = [] := by
    apply List.filter_eq_nil_iff.mpr
    intro a ha
    have := hwin a ha
    simp
    omega
  have hsi : shouldInvoke wait (throttleMid wait t0 c ap) (t0 + wait) = true := by
    simp only [shouldInvoke, throttleMid, decide_eq_true_eq]
    omega
  have htim : (throttleMid wait t0 c ap).timerExpiry = some (t0 + wait) := rfl
  have h1 : throttleStep wait calls (throttleMid wait t0 c ap) (t0 + wait) =
      timerExpired wait (throttleMid wait t0 c ap) (t0 + wait) := by
    simp only [throttleStep, hfilt, List.foldl_nil]
    rw [if_pos htim]
  rw [h1]
  simp only [throttleMid] at hsi
  cases ap with
  | false => simp [timerExpired, hsi, throttleMid, invokeAt]
  | true => simp [timerExpired, hsi, throttleMid, invokeAt]

/-- Invariant over the burst window: after running ticks `t0 .. t0 + m - 1`
(`1 ≤ m ≤ wait`), the state is the mid-window state with the timer armed for
`t0 + wait`, a single leading-edge invocation at `t0`, and arguments pending
precisely when at least two calls have arrived so far. -/
theorem phaseBC (wait t0 : Nat) (calls : List Nat) (hw : 1 ≤ wait)
    (hmem : t0 ∈ calls) (hwin : ∀ x ∈ calls, t0 ≤ x ∧ x < t0 + wait) :
    ∀ m, 1 ≤ m → m ≤ wait →
    ∃ c, t0 ≤ c ∧ c ≤ t0 + m - 1 ∧
    (List.range' t0 m).foldl (throttleStep wait calls) debInit =
      throttleMid wait t0 c
        (decide (2 ≤ (calls.filter (fun x => x ≤ t0 + m - 1)).length)) := by
  intro m
  induction m with
  | zero => intro h1 _; exact absurd h1 (by omega)
  | succ m ih =>
    intro _ hm1
    simp only [show t0 + (m + 1) - 1 = t0 + m from by omega]
    by_cases hm0 : m = 0
    · subst hm0
      simp only [Nat.add_zero, Nat.zero_add]
      refine ⟨t0, le_rfl, le_rfl, ?_⟩
      have hr1 : List.range' t0 1 = [t0] := rfl
      rw [hr1]
      simp only [List.foldl_cons, List.foldl_nil]
      exact throttleStep_first wait t0 calls hw hmem (fun x hx => (hwin x hx).1)
    · have hm : 1 ≤ m := by omega
      obtain ⟨c, hc1, hc2, hrun⟩ := ih hm (by omega)
      have hcnt := cnt_succ calls (t0 + m - 1)
      simp only [show t0 + m - 1 + 1 = t0 + m from by omega] at hcnt
      have hne2 : ¬((throttleMid wait t0 c (decide (2 ≤ (calls.filter
          (fun x => x ≤ t0 + m - 1)).length))).timerExpiry = some (t0 + m)) := by
        simp [throttleMid]
        omega
      have hstep1 : throttleStep wait calls (throttleMid wait t0 c (decide
          (2 ≤ (calls.filter (fun x => x ≤ t0 + m - 1)).length))) (t0 + m) =
          (calls.filter (fun x => x = t0 + m)).foldl
            (fun s2 _ => throttleCall wait s2 (t0 + m))
            (throttleMid wait t0 c (decide (2 ≤ (calls.filter
              (fun x => x ≤ t0 + m - 1)).length))) := by
        simp only [throttleStep]
        rw [if_neg hne2]
      have hrun2 : (List.range' t0 (m + 1)).foldl (throttleStep wait calls)
          debInit =
          (calls.filter (fun x => x = t0 + m)).foldl
            (fun s2 _ => throttleCall wait s2 (t0 + m))
            (throttleMid wait t0 c (decide (2 ≤ (calls.filter
              (fun x => x ≤ t0 + m - 1)).length))) := by
        rw [List.range'_1_concat, List.foldl_append, hrun]
        simp only [List.foldl_cons, List.foldl_nil]
        exact hstep1
      rw [callFold_mid wait t0 (t0 + m) (by omega) (by omega) _ c _ hc1
        (by omega)] at hrun2
      by_cases hN : calls.filter (fun x => x = t0 + m) = []
      · rw [if_pos hN] at hrun2
        refine ⟨c, hc1, by omega, ?_⟩
        rw [hrun2]
        have hlen : (calls.filter (fun x => x ≤ t0 + m)).length =
            (calls.filter (fun x => x ≤ t0 + m - 1)).length := by
          rw [hcnt, hN]
          simp
        rw [hlen]
      · rw [if_neg hN] at hrun2
        refine ⟨t0 + m, by omega, le_rfl, ?_⟩
        rw [hrun2]
        have h0 : 0 < (calls.filter (fun x => x ≤ t0 + m - 1)).length :=
          List.length_pos_of_mem (List.mem_filter.mpr ⟨hmem, by
            simp
            omega⟩)
        have h2p : 0 < (calls.filter (fun x => x = t0 + m)).length :=
          List.length_pos.mpr hN
        congr 1
        exact (decide_eq_true (by rw [hcnt]; omega)).symm

/-- A burst of calls all inside the half-open window `[t0, t0 + wait)` with
the first call at `t0`, run to the window boundary: the leading edge invokes
at `t0`, and the trailing edge invokes at `t0 + wait` exactly when at least
two calls arrived. -/
theorem throttle_burst (wait t0 : Nat) (calls : List Nat) (hw : 1 ≤ wait)
    (hmem : t0 ∈ calls) (hwin : ∀ x ∈ calls, t0 ≤ x ∧ x < t0 + wait) :
    (throttleRun wait calls (t0 + wait)).invocations =
    if 2 ≤ calls.length then [t0, t0 + wait] else [t0] := by
  obtain ⟨c, hc1, hc2, hBC⟩ := phaseBC wait t0 calls hw hmem hwin wait hw le_rfl
  have hfull : calls.filter (fun x => x ≤ t0 + wait - 1) = calls := by
    apply List.filter_eq_self.mpr
    intro a ha
    have := (hwin a ha).2
    simp
    omega
  rw [hfull] at hBC
  have hsplit : List.range (t0 + wait + 1) =
      (List.range' 0 t0 ++ List.range' t0 wait) ++ [t0 + wait] := by
    rw [List.range_eq_range']
    rw [show t0 + wait + 1 = wait + 1 + t0 from by omega]
    rw [← List.range'_append_1 0 t0 (wait + 1)]
    rw [Nat.zero_add]
    rw [List.range'_1_concat]
    rw [List.append_assoc]
  have hA : (List.range' 0 t0).foldl (throttleStep wait calls) debInit =
      debInit := by
    apply foldl_const_of_mem
    intro a ha
    rw [List.mem_range'_1] at ha
    exact throttleStep_quiet wait a t0 calls (by omega)
      (fun x hx => (hwin x hx).1)
  unfold throttleRun
  rw [hsplit, List.foldl_append, List.foldl_append, hA, hBC]
  simp only [List.foldl_cons, List.foldl_nil]
  rw [throttleStep_final wait t0 c (decide (2 ≤ calls.length)) calls
    (fun x hx => (hwin x hx).2)]
  by_cases h2 : 2 ≤ calls.length <;> simp [h2]

/-- C7 counterexample: two triggers, at t=0 and t=1, both well inside the
wait=1000 cool-down window of `throttledListQueue`, produce TWO outgoing
fetches — the leading-edge fetch at t=0 and a trailing-edge fetch at t=1000 —
because lodash `throttle` keeps both the leading and the trailing edge
enabled by default; so N signals in one window do not produce exactly 1
fetch whenever N ≥ 2. -/
theorem c7_counterexample :
    (throttleRun 1000 [0, 1] 1000).invocations = [0, 1000] ∧
    (throttleRun 1000 [0, 1] 1000).invocations.length ≠ 1 := by
  have h := throttle_burst 1000 0 [0, 1] (by decide) (by decide) (by decide)
  simp only [Nat.zero_add] at h
  rw [h]
  decide

/-- C7 amended: lodash `throttle` has both edges enabled, so a burst of N
triggers inside one cool-down window opening at `t0` produces exactly one
outgoing fetch inside the window — the leading-edge fetch at `t0` — plus,
precisely when N ≥ 2, one further trailing-edge fetch at the window boundary
`t0 + wait`: 2 fetches in total for N ≥ 2 and 1 for N = 1, rather than the
claimed exactly 1 for every N ≥ 1. -/
theorem c7_throttle (wait t0 : Nat) (calls : List Nat) (hw : 1 ≤ wait)
    (hmem : t0 ∈ calls) (hwin : ∀ x ∈ calls, t0 ≤ x ∧ x < t0 + wait) :
    (throttleRun wait calls (t0 + wait)).invocations =
    if 2 ≤ calls.length then [t0, t0 + wait] else [t0] :=
  throttle_burst wait t0 calls hw hmem hwin

theorem c7_witness :
    (throttleRun 1000 [0, 200, 400] (0 + 1000)).invocations =
    if 2 ≤ ([0, 200, 400] : List Nat).length then [0, 0 + 1000] else [0] :=
  c7_throttle 1000 0 [0, 200, 400] (by decide) (by decide) (by decide)
